import Mathlib

/-!
lazyEventSystem: a typed publish/subscribe bus.

Shallow embedding of `EventSystem.hpp` (subscription by closure),
`EventSystem_FuncPtr.hpp` (subscription by receiver pointer plus method
pointer) and of the collision demo of `main.cpp` / `main_func_ptr.cpp`
(`event.cpp` and `event_func_ptr.cpp` are the same code in one file each).

Conventions of the embedding:

* a `std::type_index` is a natural number, `typeid(T)` for distinct classes
  gives distinct numbers;
* a callback is a transformer of an abstract world `σ` (everything outside the
  bus the callback can touch) that also says whether it returned normally or
  threw; a callback cannot reach the bus itself;
* a `FuncHandlerList*` is `none` for `nullptr` and `some l` for a pointer to
  the list `l`; every list is reachable from one map slot only, so the heap is
  left out and lists are stored by value;
* `std::unordered_map` is a partial function on keys: `none` for an absent key;
* besides the machine state, `publish` reports the calls of `exec` it made, in
  order (`invoked`), and the exception that left it, if any (`thrown`);
* `size_t` is 64 bits wide and `int` is 32 bits wide; `int` arithmetic wraps
  around in two's complement (the language leaves its overflow undefined);
* allocation never fails.
-/

/-- The value of `typeid(T)` as a `std::type_index`. -/
abbrev TypeIndex := Nat

/-- Exceptions that can leave a call. -/
inductive Exception where
  | runtime_error (what : String)
  | out_of_range (what : String)
  | other (code : Nat)
  deriving DecidableEq, Repr

/-- An object of a class derived from `Event`: the type of the most derived
object and the values of its data members. -/
structure Event where
  dynType : TypeIndex
  fields : List Nat
  deriving DecidableEq, Repr

/-- The message of the exception raised by `publish` on a null list pointer. -/
def noSubscribersMsg : String := "No subscribers for this type of event"

/-- The message of the exception raised by `publish` on a null handler. -/
def nullHandlerMsg : String := "Tried to access null function handler!"

/-- The error the specification calls `NoSubscribers`. -/
def NoSubscribers : Exception := Exception.runtime_error noSubscribersMsg

/-- The error the specification calls `CorruptRegistry`. -/
def CorruptRegistry : Exception := Exception.runtime_error nullHandlerMsg

/-- Model of `std::unordered_map<K, V>`: `none` for an absent key. -/
abbrev UnorderedMap (V : Type) := TypeIndex → Option V

namespace UnorderedMap

variable {V : Type}

/-- A default-constructed map. -/
def empty : UnorderedMap V := fun _ => none

/-- Assignment through the reference returned by `operator[]`. -/
def set (m : UnorderedMap V) (k : TypeIndex) (v : V) : UnorderedMap V :=
  fun k' => if k' = k then some v else m k'

/-- Reading `m[k]`: an absent key is first inserted with the value-initialised
`dflt`. Returns the map afterwards and the value read. -/
def index (m : UnorderedMap V) (k : TypeIndex) (dflt : V) : UnorderedMap V × V :=
  match m k with
  | some v => (m, v)
  | none => (set m k dflt, dflt)

end UnorderedMap

namespace EventSystem

/-- The type `std::function<void(const TEventType&)>`, as a world transformer
that reports the exception it threw, if any. -/
abbrev MemberFunction (σ : Type) := Event → σ → σ × Option Exception

/-- A `MemberFunctionHandler<TEventType>` object: `eventType` is
`typeid(TEventType)` of the instantiation. -/
structure MemberFunctionHandler (σ : Type) where
  eventType : TypeIndex
  member_func : MemberFunction σ

/-- Body of `MemberFunctionHandler::call`: the static cast leaves the object as
it is. -/
def MemberFunctionHandler.call {σ : Type} (h : MemberFunctionHandler σ) (event : Event)
    (w : σ) : σ × Option Exception :=
  h.member_func event w

/-- Body of `FunctionHandlerBase::exec`. -/
def MemberFunctionHandler.exec {σ : Type} (h : MemberFunctionHandler σ) (event : Event)
    (w : σ) : σ × Option Exception :=
  h.call event w

/-- The type `std::vector<FunctionHandlerBase*>`: `none` is a null element. -/
abbrev FuncHandlerList (σ : Type) := List (Option (MemberFunctionHandler σ))

/-- The class `EventBus`. -/
structure EventBus (σ : Type) where
  subscriber_map : UnorderedMap (Option (FuncHandlerList σ))

/-- A default-constructed bus. -/
def EventBus.fresh {σ : Type} : EventBus σ := ⟨UnorderedMap.empty⟩

/-- The handler list a lookup of `K` yields: empty for an absent key and for a
null pointer. -/
def EventBus.handlers {σ : Type} (bus : EventBus σ) (K : TypeIndex) : FuncHandlerList σ :=
  match bus.subscriber_map K with
  | some (some l) => l
  | _ => []

/-- Body of `EventBus::subscribe<TEventType>(memberFunc)`. -/
def EventBus.subscribe {σ : Type} (bus : EventBus σ) (TEventType : TypeIndex)
    (memberFunc : MemberFunction σ) : EventBus σ :=
  let r := bus.subscriber_map.index TEventType none
  let handler : MemberFunctionHandler σ := ⟨TEventType, memberFunc⟩
  match r.2 with
  | none => ⟨r.1.set TEventType (some [some handler])⟩
  | some l => ⟨r.1.set TEventType (some (l ++ [some handler]))⟩

/-- What a call of `publish` leaves behind. -/
structure Outcome (σ : Type) where
  bus : EventBus σ
  world : σ
  invoked : List (MemberFunctionHandler σ × Event)
  thrown : Option Exception

/-- The range-for loop of `publish` over the elements of the list still to be
visited. Returns the world, the calls of `exec` made and the exception that
ended the loop, if any. -/
def dispatch {σ : Type} :
    FuncHandlerList σ → Event → σ → σ × List (MemberFunctionHandler σ × Event) × Option Exception
  | [], _, w => (w, [], none)
  | none :: _, _, w => (w, [], some CorruptRegistry)
  | some h :: rest, event, w =>
    match h.exec event w with
    | (w', some x) => (w', [(h, event)], some x)
    | (w', none) =>
      let r := dispatch rest event w'
      (r.1, (h, event) :: r.2.1, r.2.2)

/-- Body of `EventBus::publish<TEventType>(event)`: `TEventType` is the static
type of the argument. -/
def EventBus.publish {σ : Type} (bus : EventBus σ) (TEventType : TypeIndex) (event : Event)
    (w : σ) : Outcome σ :=
  let r := bus.subscriber_map.index TEventType none
  match r.2 with
  | none => ⟨⟨r.1⟩, w, [], some NoSubscribers⟩
  | some l =>
    let d := dispatch l event w
    ⟨⟨r.1⟩, d.1, d.2.1, d.2.2⟩

/-- One call on the bus made by a collaborator. -/
inductive Op (σ : Type) where
  | subscribe (K : TypeIndex) (c : MemberFunction σ)
  | publish (K : TypeIndex) (e : Event)

/-- Bus and world while a collaborator runs, with the log of the calls of `exec`
and, for every `publish`, how it ended (`none`: it returned), oldest first. -/
structure Machine (σ : Type) where
  bus : EventBus σ
  world : σ
  invoked : List (MemberFunctionHandler σ × Event)
  results : List (Option Exception)

/-- A fresh bus in the world `w`. -/
def Machine.init {σ : Type} (w : σ) : Machine σ := ⟨EventBus.fresh, w, [], []⟩

/-- The collaborator performs one call; an exception is caught and logged. -/
def Machine.step {σ : Type} (m : Machine σ) : Op σ → Machine σ
  | Op.subscribe K c => { m with bus := m.bus.subscribe K c }
  | Op.publish K e =>
    let r := m.bus.publish K e m.world
    ⟨r.bus, r.world, m.invoked ++ r.invoked, m.results ++ [r.thrown]⟩

/-- The collaborator performs the calls `ops`, in order. -/
def Machine.run {σ : Type} (m : Machine σ) (ops : List (Op σ)) : Machine σ :=
  ops.foldl Machine.step m

/-- The callbacks subscribed to `K` by `ops`, oldest first. -/
def subscribedTo {σ : Type} (K : TypeIndex) : List (Op σ) → List (MemberFunction σ)
  | [] => []
  | Op.subscribe K' c :: ops => if K' = K then c :: subscribedTo K ops else subscribedTo K ops
  | Op.publish _ _ :: ops => subscribedTo K ops

/-- The handlers `subscribe` builds for the callbacks `cs` under `K`. -/
def handlersFor {σ : Type} (K : TypeIndex) (cs : List (MemberFunction σ)) : FuncHandlerList σ :=
  cs.map fun c => some ⟨K, c⟩

/-- The world after the callbacks `cs` have run on `e`, one after the other. -/
def runAll {σ : Type} (cs : List (MemberFunction σ)) (e : Event) (w : σ) : σ :=
  cs.foldl (fun w c => (c e w).1) w

/-- The callback returns normally, whatever the world. -/
def NeverFails {σ : Type} (c : MemberFunction σ) : Prop :=
  ∀ e w, (c e w).2 = none

/-- The slot of `K` holds no list: the key is absent or mapped to `nullptr`. -/
def EventBus.IsNull {σ : Type} (bus : EventBus σ) (K : TypeIndex) : Prop :=
  bus.subscriber_map K = none ∨ bus.subscriber_map K = some none

end EventSystem

namespace EventSystem_FuncPtr

/-- The type `void (TSystem::*)(TEventType*)`: what the method does when called
on the receiver `ρ` with an event pointer (`none` is `nullptr`). -/
abbrev MemberFunction (ρ σ : Type) := ρ → Option Event → σ → σ × Option Exception

/-- A `MemberFunctionHandler<TSystem, TEventType>` object: `eventType` is
`typeid(TEventType)` of the instantiation. -/
structure MemberFunctionHandler (ρ σ : Type) where
  eventType : TypeIndex
  system_instance : ρ
  member_func : MemberFunction ρ σ

/-- Body of `MemberFunctionHandler::call`. -/
def MemberFunctionHandler.call {ρ σ : Type} (h : MemberFunctionHandler ρ σ)
    (event : Option Event) (w : σ) : σ × Option Exception :=
  h.member_func h.system_instance event w

/-- Body of `FunctionHandlerBase::exec`. -/
def MemberFunctionHandler.exec {ρ σ : Type} (h : MemberFunctionHandler ρ σ)
    (event : Option Event) (w : σ) : σ × Option Exception :=
  h.call event w

/-- The type `std::list<FunctionHandlerBase*>`: `none` is a null element. -/
abbrev FuncHandlerList (ρ σ : Type) := List (Option (MemberFunctionHandler ρ σ))

/-- The class `EventBus`. -/
structure EventBus (ρ σ : Type) where
  subscriber_map : UnorderedMap (Option (FuncHandlerList ρ σ))

/-- A default-constructed bus. -/
def EventBus.fresh {ρ σ : Type} : EventBus ρ σ := ⟨UnorderedMap.empty⟩

/-- The handler list a lookup of `K` yields: empty for an absent key and for a
null pointer. -/
def EventBus.handlers {ρ σ : Type} (bus : EventBus ρ σ) (K : TypeIndex) : FuncHandlerList ρ σ :=
  match bus.subscriber_map K with
  | some (some l) => l
  | _ => []

/-- The slot of `K` holds no list: the key is absent or mapped to `nullptr`. -/
def EventBus.IsNull {ρ σ : Type} (bus : EventBus ρ σ) (K : TypeIndex) : Prop :=
  bus.subscriber_map K = none ∨ bus.subscriber_map K = some none

/-- Body of `EventBus::subscribe<TSystem, TEventType>(systemInstance, memberFunc)`. -/
def EventBus.subscribe {ρ σ : Type} (bus : EventBus ρ σ) (TEventType : TypeIndex)
    (systemInstance : ρ) (memberFunc : MemberFunction ρ σ) : EventBus ρ σ :=
  let r := bus.subscriber_map.index TEventType none
  let handler : MemberFunctionHandler ρ σ := ⟨TEventType, systemInstance, memberFunc⟩
  match r.2 with
  | none => ⟨r.1.set TEventType (some [some handler])⟩
  | some l => ⟨r.1.set TEventType (some (l ++ [some handler]))⟩

/-- What a call of `publish` leaves behind. -/
structure Outcome (ρ σ : Type) where
  bus : EventBus ρ σ
  world : σ
  invoked : List (MemberFunctionHandler ρ σ × Option Event)
  thrown : Option Exception

/-- The range-for loop of `publish` over the elements of the list still to be
visited. -/
def dispatch {ρ σ : Type} :
    FuncHandlerList ρ σ → Option Event → σ →
      σ × List (MemberFunctionHandler ρ σ × Option Event) × Option Exception
  | [], _, w => (w, [], none)
  | none :: _, _, w => (w, [], some CorruptRegistry)
  | some h :: rest, event, w =>
    match h.exec event w with
    | (w', some x) => (w', [(h, event)], some x)
    | (w', none) =>
      let r := dispatch rest event w'
      (r.1, (h, event) :: r.2.1, r.2.2)

/-- Body of `EventBus::publish<TEventType>(event)`: `TEventType` is the static
type of the pointee. -/
def EventBus.publish {ρ σ : Type} (bus : EventBus ρ σ) (TEventType : TypeIndex)
    (event : Option Event) (w : σ) : Outcome ρ σ :=
  let r := bus.subscriber_map.index TEventType none
  match r.2 with
  | none => ⟨⟨r.1⟩, w, [], some NoSubscribers⟩
  | some l =>
    let d := dispatch l event w
    ⟨⟨r.1⟩, d.1, d.2.1, d.2.2⟩

/-- One call on the bus made by a collaborator. -/
inductive Op (ρ σ : Type) where
  | subscribe (K : TypeIndex) (r : ρ) (m : MemberFunction ρ σ)
  | publish (K : TypeIndex) (e : Option Event)

/-- Bus and world while a collaborator runs, with the log of the calls of `exec`
and, for every `publish`, how it ended (`none`: it returned), oldest first. -/
structure Machine (ρ σ : Type) where
  bus : EventBus ρ σ
  world : σ
  invoked : List (MemberFunctionHandler ρ σ × Option Event)
  results : List (Option Exception)

/-- A fresh bus in the world `w`. -/
def Machine.init {ρ σ : Type} (w : σ) : Machine ρ σ := ⟨EventBus.fresh, w, [], []⟩

/-- The collaborator performs one call; an exception is caught and logged. -/
def Machine.step {ρ σ : Type} (m : Machine ρ σ) : Op ρ σ → Machine ρ σ
  | Op.subscribe K r f => { m with bus := m.bus.subscribe K r f }
  | Op.publish K e =>
    let r := m.bus.publish K e m.world
    ⟨r.bus, r.world, m.invoked ++ r.invoked, m.results ++ [r.thrown]⟩

/-- The collaborator performs the calls `ops`, in order. -/
def Machine.run {ρ σ : Type} (m : Machine ρ σ) (ops : List (Op ρ σ)) : Machine ρ σ :=
  ops.foldl Machine.step m

end EventSystem_FuncPtr

/-! ## The collision demo (`main.cpp`) -/

/-- Conversion of an `int` to `uint8_t`. -/
def toUInt8 (x : Int) : Nat := (x % 256).toNat

/-- Conversion of an `int` to the 64-bit `size_t`. -/
def toSizeT (x : Int) : Nat := (x % 2 ^ 64).toNat

/-- The 32-bit `int` a mathematical result is stored as (two's complement
wrap-around). -/
def wrapInt (x : Int) : Int := (x + 2 ^ 31) % 2 ^ 32 - 2 ^ 31

/-- The value of `size - 1` computed in `size_t`. -/
def sizeMinusOne (size : Nat) : Nat := (size + 2 ^ 64 - 1) % 2 ^ 64

/-- A 32-bit counter takes at most this many values: a loop whose condition
depends on the counter alone and that has not ended after so many tests never
ends. -/
def intValues : Nat := 2 ^ 32

/-- Model of `std::vector<uint8_t>::at`; the message of the exception is cut
short. -/
def vectorAt (v : List Nat) (idx : Nat) : Except Exception Nat :=
  match v[idx]? with
  | some x => Except.ok x
  | none => Except.error (Exception.out_of_range "vector::_M_range_check")

/-- The value of `typeid(CollisionEvent)`. -/
def typeidCollisionEvent : TypeIndex := 1

/-- The constructor `CollisionEvent(uint8_t ent_1, uint8_t ent_2)` applied to
`int` arguments, which are converted to `uint8_t`. -/
def CollisionEvent (ent_1 ent_2 : Int) : Event :=
  ⟨typeidCollisionEvent, [toUInt8 ent_1, toUInt8 ent_2]⟩

/-- The data member `entity_1` of a `CollisionEvent`. -/
def Event.entity_1 (e : Event) : Nat := e.fields.getD 0 0

/-- The data member `entity_2` of a `CollisionEvent`. -/
def Event.entity_2 (e : Event) : Nat := e.fields.getD 1 0

/-- State of a run of `CollisionUpdate` over a bus state `β`: `published` lists
the calls of `publish` made, oldest first, each as the indices `i` and `j` (as
converted for `at`) and the event object passed. -/
structure Update (β : Type) where
  env : β
  published : List (Nat × Nat × Event)

/-- The inner loop of `CollisionUpdate` from the test of `j < entities.size()`
on, with `publish` as a parameter. `none`: the loop does not end within `fuel`
tests; otherwise the state and the exception that left the loop, if any. -/
def innerLoop {β : Type} (publish : Event → β → β × Option Exception) (entities : List Nat)
    (i : Int) : Nat → Int → Update β → Option (Update β × Option Exception)
  | 0, _, _ => none
  | fuel + 1, j, s =>
    if toSizeT j < entities.length then
      match vectorAt entities (toSizeT i), vectorAt entities (toSizeT j) with
      | Except.error x, _ => some (s, some x)
      | Except.ok _, Except.error x => some (s, some x)
      | Except.ok a, Except.ok b =>
        if a = b then
          let r := publish (CollisionEvent i j) s.env
          let s' : Update β := ⟨r.1, s.published ++ [(toSizeT i, toSizeT j, CollisionEvent i j)]⟩
          match r.2 with
          | some x => some (s', some x)
          | none => innerLoop publish entities i fuel (wrapInt (j + 1)) s'
        else innerLoop publish entities i fuel (wrapInt (j + 1)) s
    else some (s, none)

/-- The outer loop of `CollisionUpdate` from the test of
`i < entities.size() - 1` on. -/
def outerLoop {β : Type} (publish : Event → β → β × Option Exception) (entities : List Nat) :
    Nat → Int → Update β → Option (Update β × Option Exception)
  | 0, _, _ => none
  | fuel + 1, i, s =>
    if toSizeT i < sizeMinusOne entities.length then
      match innerLoop publish entities i intValues (wrapInt (i + 1)) s with
      | none => none
      | some (s', some x) => some (s', some x)
      | some (s', none) => outerLoop publish entities fuel (wrapInt (i + 1)) s'
    else some (s, none)

/-- The two nested loops of `CollisionUpdate`, with `publish` as a parameter. -/
def collisionLoops {β : Type} (publish : Event → β → β × Option Exception) (entities : List Nat)
    (env : β) : Option (Update β × Option Exception) :=
  outerLoop publish entities intValues 0 ⟨env, []⟩

namespace EventSystem

/-- The global `event_bus` with the world around it and the log of the calls of
`exec`. -/
structure Globals (σ : Type) where
  event_bus : EventBus σ
  world : σ
  invoked : List (MemberFunctionHandler σ × Event)

/-- The statement `event_bus.publish(CollisionEvent(i, j))` of `main.cpp`. -/
def Globals.publish {σ : Type} (e : Event) (g : Globals σ) : Globals σ × Option Exception :=
  let r := g.event_bus.publish typeidCollisionEvent e g.world
  (⟨r.bus, r.world, g.invoked ++ r.invoked⟩, r.thrown)

/-- The class `PhysicsSystem` of `main.cpp`. -/
structure PhysicsSystem where
  entities : List Nat

/-- Body of `PhysicsSystem::CollisionUpdate` of `main.cpp`. -/
def PhysicsSystem.CollisionUpdate {σ : Type} (self : PhysicsSystem) (g : Globals σ) :
    Option (Update (Globals σ) × Option Exception) :=
  collisionLoops Globals.publish self.entities g

end EventSystem

namespace EventSystem_FuncPtr

/-- The global `event_bus` with the world around it and the log of the calls of
`exec`. -/
structure Globals (ρ σ : Type) where
  event_bus : EventBus ρ σ
  world : σ
  invoked : List (MemberFunctionHandler ρ σ × Option Event)

/-- The statement `event_bus.publish(new CollisionEvent(i, j))` of
`main_func_ptr.cpp`. -/
def Globals.publish {ρ σ : Type} (e : Event) (g : Globals ρ σ) :
    Globals ρ σ × Option Exception :=
  let r := g.event_bus.publish typeidCollisionEvent (some e) g.world
  (⟨r.bus, r.world, g.invoked ++ r.invoked⟩, r.thrown)

/-- The class `PhysicsSystem` of `main_func_ptr.cpp`. -/
structure PhysicsSystem where
  entities : List Nat

/-- Body of `PhysicsSystem::CollisionUpdate` of `main_func_ptr.cpp`. -/
def PhysicsSystem.CollisionUpdate {ρ σ : Type} (self : PhysicsSystem) (g : Globals ρ σ) :
    Option (Update (Globals ρ σ) × Option Exception) :=
  collisionLoops Globals.publish self.entities g

end EventSystem_FuncPtr

/-- The index pairs `(i, j)` with `k ≤ j < k + d` and `entities[i] == entities[j]`,
by increasing `j`. -/
def rowFrom (entities : List Nat) (i : Nat) : Nat → Nat → List (Nat × Nat)
  | 0, _ => []
  | d + 1, k =>
    (if entities[i]? = entities[k]? then [(i, k)] else []) ++ rowFrom entities i d (k + 1)

/-- The index pairs `(i', j)` with `i ≤ i' < i + d`, `i' < j < entities.size()` and
`entities[i'] == entities[j]`, by increasing `i'`, then by increasing `j`. -/
def rowsFrom (entities : List Nat) : Nat → Nat → List (Nat × Nat)
  | 0, _ => []
  | d + 1, i =>
    rowFrom entities i (entities.length - (i + 1)) (i + 1) ++ rowsFrom entities d (i + 1)

/-- The log entry of the call `publish(CollisionEvent(i, j))`. -/
def publishedAt (p : Nat × Nat) : Nat × Nat × Event :=
  (p.1, p.2, CollisionEvent (p.1 : Int) (p.2 : Int))

/-- The bus state after publishing the events `evs`, one after the other. -/
def publishAll {β : Type} (publish : Event → β → β × Option Exception) (evs : List Event)
    (env : β) : β :=
  evs.foldl (fun g e => (publish e g).1) env

/-- Lexicographic order on index pairs. -/
def lexLt (p q : Nat × Nat) : Prop := p.1 < q.1 ∨ (p.1 = q.1 ∧ p.2 < q.2)

/-- Values an `int` can take. -/
def IsInt (x : Int) : Prop := -2 ^ 31 ≤ x ∧ x < 2 ^ 31

/-- A log entry as the loops of `CollisionUpdate` write them: made from two `int`
counters that index equal elements of the list. -/
def IsCollisionEntry (entities : List Nat) (q : Nat × Nat × Event) : Prop :=
  ∃ i j : Int, IsInt i ∧ IsInt j ∧ q = (toSizeT i, toSizeT j, CollisionEvent i j)
    ∧ toSizeT i < entities.length ∧ toSizeT j < entities.length
    ∧ entities[toSizeT i]? = entities[toSizeT j]?

/-- The number of increments that take an `int` counter to `-1`. -/
def stepsToMinusOne (x : Int) : Nat := ((-1 - x) % 2 ^ 32).toNat

/-- An entity list of `2 ^ 31 + 2` elements whose last two elements are equal. -/
def longEntities : List Nat := List.replicate (2 ^ 31) 0 ++ [1, 1]

/-- The callback `WarningSystem::OnCollisionEvent`: the world is the text
written to `std::cout`, as the pairs of numbers printed. -/
def OnCollisionEvent : EventSystem.MemberFunction (List (Nat × Nat)) :=
  fun collision out => (out ++ [(collision.entity_1, collision.entity_2)], none)

/-- The globals of `main.cpp` after `warningSys.Init()`. -/
def mainGlobals : EventSystem.Globals (List (Nat × Nat)) :=
  ⟨EventSystem.EventBus.fresh.subscribe typeidCollisionEvent OnCollisionEvent, [], []⟩

/-- The entity list of `main`. -/
def mainEntities : List Nat := [1, 2, 3, 4, 2, 3]

/-- A logging callback: appends its own number and the two entities of the
event it receives to the log. -/
def logger (id : Nat) : EventSystem.MemberFunction (List (Nat × Nat × Nat)) :=
  fun e log => (log ++ [(id, e.entity_1, e.entity_2)], none)

/-- A callback that counts its calls and always returns normally. -/
def counting : EventSystem.MemberFunction Nat := fun _ n => (n + 1, none)

/-- A callback that counts its calls and always throws. -/
def countingThrower : EventSystem.MemberFunction Nat :=
  fun _ n => (n + 1, some (Exception.other 0))

/-- A callback that counts its calls and throws from its second call on. -/
def failsSecondTime : EventSystem.MemberFunction Nat :=
  fun _ n => (n + 1, if n = 0 then none else some (Exception.other 0))

/-! ## Correspondence of the two variants -/

/-- The closure `c` does on every event what the method `m` does when called on
the receiver `r` with a pointer to that event. -/
def Corresponds {ρ σ : Type} (c : EventSystem.MemberFunction σ) (r : ρ)
    (m : EventSystem_FuncPtr.MemberFunction ρ σ) : Prop :=
  ∀ e w, c e w = m r (some e) w

/-- Corresponding calls on the two buses: the same kind, and a closure that
corresponds to the receiver and method, or the same event. -/
inductive OpCorr {ρ σ : Type} : EventSystem.Op σ → EventSystem_FuncPtr.Op ρ σ → Prop where
  | subscribe (K : TypeIndex) (c : EventSystem.MemberFunction σ) (r : ρ)
      (m : EventSystem_FuncPtr.MemberFunction ρ σ) (h : Corresponds c r m) :
      OpCorr (EventSystem.Op.subscribe K c) (EventSystem_FuncPtr.Op.subscribe K r m)
  | publish (K : TypeIndex) (e : Event) :
      OpCorr (EventSystem.Op.publish K e) (EventSystem_FuncPtr.Op.publish K (some e))

/-- Corresponding handlers: built for the same event type, around corresponding
callbacks. -/
def HandlerCorr {ρ σ : Type} (h : EventSystem.MemberFunctionHandler σ)
    (h' : EventSystem_FuncPtr.MemberFunctionHandler ρ σ) : Prop :=
  h.eventType = h'.eventType ∧ Corresponds h.member_func h'.system_instance h'.member_func

/-- Corresponding calls of `exec`: corresponding handlers on the same event. -/
def CallCorr {ρ σ : Type} (p : EventSystem.MemberFunctionHandler σ × Event)
    (q : EventSystem_FuncPtr.MemberFunctionHandler ρ σ × Option Event) : Prop :=
  HandlerCorr p.1 q.1 ∧ q.2 = some p.2

/-- Corresponding slots of the two maps: both absent, both null, or lists of
corresponding elements. -/
def SlotCorr {ρ σ : Type} (a : Option (Option (EventSystem.FuncHandlerList σ)))
    (b : Option (Option (EventSystem_FuncPtr.FuncHandlerList ρ σ))) : Prop :=
  match a, b with
  | none, none => True
  | some none, some none => True
  | some (some l), some (some l') => List.Forall₂ (Option.Rel HandlerCorr) l l'
  | _, _ => False

/-- Corresponding machines: corresponding slots for every kind, the same world,
the same ends of the publishes and corresponding calls logged. -/
def MachineCorr {ρ σ : Type} (m : EventSystem.Machine σ) (m' : EventSystem_FuncPtr.Machine ρ σ) :
    Prop :=
  (∀ K, SlotCorr (m.bus.subscriber_map K) (m'.bus.subscriber_map K))
    ∧ m.world = m'.world ∧ m.results = m'.results
    ∧ List.Forall₂ CallCorr m.invoked m'.invoked

/-- The method `WarningSystem::OnCOllisionEvent` of `main_func_ptr.cpp` on a
receiver without state; the world is the text written to `std::cout`, as the
pairs of numbers printed. Dereferencing a null event is left out: nothing is
printed. -/
def OnCOllisionEvent : EventSystem_FuncPtr.MemberFunction Unit (List (Nat × Nat)) :=
  fun _ collision out =>
    match collision with
    | some ev => (out ++ [(ev.entity_1, ev.entity_2)], none)
    | none => (out, none)

/-- The value of `typeid(Event)`, the base class. -/
def typeidEvent : TypeIndex := 0

namespace EventSystem

/-- The callbacks `cs`, run one after the other on `e` from the world `w`, all
return normally. -/
def AllReturn {σ : Type} : List (MemberFunction σ) → Event → σ → Prop
  | [], _, _ => True
  | c :: cs, e, w => (c e w).2 = none ∧ AllReturn cs e (c e w).1

/-- Two buses that a lookup cannot tell apart: for every kind, both hold no list
(the key absent or mapped to a null pointer), or the slots are equal. -/
def SameLists {σ : Type} (b b' : EventBus σ) : Prop :=
  ∀ K, (b.IsNull K ∧ b'.IsNull K) ∨ b.subscriber_map K = b'.subscriber_map K

/-- Two machines with buses that a lookup cannot tell apart, in the same world
and with the same logs. -/
def MachineSame {σ : Type} (m m' : Machine σ) : Prop :=
  SameLists m.bus m'.bus ∧ m.world = m'.world ∧ m.invoked = m'.invoked
    ∧ m.results = m'.results

end EventSystem

/-! ## The loops of `CollisionUpdate` with a log of the element accesses -/

/-- The inner loop of `CollisionUpdate` once more, carrying in addition a log of
the index pairs with which `entities.at(i)` and `entities.at(j)` are
evaluated, oldest first. -/
def innerLoopLogged {β : Type} (publish : Event → β → β × Option Exception)
    (entities : List Nat) (i : Int) :
    Nat → Int → Update β → List (Nat × Nat) →
      Option ((Update β × Option Exception) × List (Nat × Nat))
  | 0, _, _, _ => none
  | fuel + 1, j, s, log =>
    if toSizeT j < entities.length then
      match vectorAt entities (toSizeT i), vectorAt entities (toSizeT j) with
      | Except.error x, _ => some ((s, some x), log ++ [(toSizeT i, toSizeT j)])
      | Except.ok _, Except.error x => some ((s, some x), log ++ [(toSizeT i, toSizeT j)])
      | Except.ok a, Except.ok b =>
        if a = b then
          let r := publish (CollisionEvent i j) s.env
          let s' : Update β := ⟨r.1, s.published ++ [(toSizeT i, toSizeT j, CollisionEvent i j)]⟩
          match r.2 with
          | some x => some ((s', some x), log ++ [(toSizeT i, toSizeT j)])
          | none =>
            innerLoopLogged publish entities i fuel (wrapInt (j + 1)) s'
              (log ++ [(toSizeT i, toSizeT j)])
        else
          innerLoopLogged publish entities i fuel (wrapInt (j + 1)) s
            (log ++ [(toSizeT i, toSizeT j)])
    else some ((s, none), log)

/-- The outer loop of `CollisionUpdate` once more, carrying the log of the
element accesses. -/
def outerLoopLogged {β : Type} (publish : Event → β → β × Option Exception)
    (entities : List Nat) :
    Nat → Int → Update β → List (Nat × Nat) →
      Option ((Update β × Option Exception) × List (Nat × Nat))
  | 0, _, _, _ => none
  | fuel + 1, i, s, log =>
    if toSizeT i < sizeMinusOne entities.length then
      match innerLoopLogged publish entities i intValues (wrapInt (i + 1)) s log with
      | none => none
      | some ((s', some x), log') => some ((s', some x), log')
      | some ((s', none), log') => outerLoopLogged publish entities fuel (wrapInt (i + 1)) s' log'
    else some ((s, none), log)

/-- The two loops of `CollisionUpdate` with the log of the element accesses. -/
def collisionLoopsLogged {β : Type} (publish : Event → β → β × Option Exception)
    (entities : List Nat) (env : β) :
    Option ((Update β × Option Exception) × List (Nat × Nat)) :=
  outerLoopLogged publish entities intValues 0 ⟨env, []⟩ []

/-- A callback that does nothing and returns. -/
def silent {σ : Type} : EventSystem.MemberFunction σ := fun _ w => (w, none)

/-- The globals with one subscriber for `CollisionEvent`, the callback `silent`,
in the world `w0`. -/
def silentGlobals {σ : Type} (w0 : σ) : EventSystem.Globals σ :=
  ⟨EventSystem.EventBus.fresh.subscribe typeidCollisionEvent silent, w0, []⟩

/-! ## The closure bus: lemmas -/

namespace EventSystem

variable {σ : Type}

theorem handlers_fresh (K : TypeIndex) : (EventBus.fresh : EventBus σ).handlers K = [] := rfl

theorem handlers_subscribe_same (bus : EventBus σ) (K : TypeIndex) (c : MemberFunction σ) :
    (bus.subscribe K c).handlers K = bus.handlers K ++ [some ⟨K, c⟩] := by
  unfold EventBus.subscribe EventBus.handlers UnorderedMap.index
  rcases h : bus.subscriber_map K with _ | _ | l <;> simp [UnorderedMap.set, h]

theorem slot_subscribe_other (bus : EventBus σ) {K K' : TypeIndex} (c : MemberFunction σ)
    (hne : K' ≠ K) : (bus.subscribe K c).subscriber_map K' = bus.subscriber_map K' := by
  unfold EventBus.subscribe UnorderedMap.index
  rcases h : bus.subscriber_map K with _ | _ | l <;> simp [UnorderedMap.set, h, hne]

theorem slot_subscribe_same (bus : EventBus σ) (K : TypeIndex) (c : MemberFunction σ) :
    (bus.subscribe K c).subscriber_map K = some (some (bus.handlers K ++ [some ⟨K, c⟩])) := by
  unfold EventBus.subscribe EventBus.handlers UnorderedMap.index
  rcases h : bus.subscriber_map K with _ | _ | l <;> simp [UnorderedMap.set, h]

theorem handlers_subscribe_other (bus : EventBus σ) {K K' : TypeIndex} (c : MemberFunction σ)
    (hne : K' ≠ K) : (bus.subscribe K c).handlers K' = bus.handlers K' := by
  unfold EventBus.handlers
  rw [slot_subscribe_other bus c hne]

theorem slot_publish_other (bus : EventBus σ) {K K' : TypeIndex} (e : Event) (w : σ)
    (hne : K' ≠ K) : (bus.publish K e w).bus.subscriber_map K' = bus.subscriber_map K' := by
  unfold EventBus.publish UnorderedMap.index
  rcases h : bus.subscriber_map K with _ | _ | l <;> simp [UnorderedMap.set, h, hne]

theorem slot_publish_same (bus : EventBus σ) (K : TypeIndex) (e : Event) (w : σ) :
    (bus.publish K e w).bus.subscriber_map K
      = some ((bus.subscriber_map K).getD none) := by
  unfold EventBus.publish UnorderedMap.index
  rcases h : bus.subscriber_map K with _ | _ | l <;> simp [UnorderedMap.set, h]

theorem handlers_publish (bus : EventBus σ) (K K' : TypeIndex) (e : Event) (w : σ) :
    (bus.publish K e w).bus.handlers K' = bus.handlers K' := by
  by_cases hne : K' = K
  · subst hne
    unfold EventBus.handlers
    rw [slot_publish_same]
    rcases h : bus.subscriber_map K' with _ | _ | l <;> simp
  · unfold EventBus.handlers
    rw [slot_publish_other bus e w hne]

theorem isNull_fresh (K : TypeIndex) : (EventBus.fresh : EventBus σ).IsNull K := Or.inl rfl

theorem handlers_of_isNull {bus : EventBus σ} {K : TypeIndex} (h : bus.IsNull K) :
    bus.handlers K = [] := by
  unfold EventBus.handlers
  rcases h with h | h <;> simp [h]

theorem isNull_publish {bus : EventBus σ} {K : TypeIndex} (h : bus.IsNull K)
    (K' : TypeIndex) (e : Event) (w : σ) : (bus.publish K' e w).bus.IsNull K := by
  by_cases hne : K = K'
  · subst hne
    right
    rw [slot_publish_same]
    rcases h with h | h <;> simp [h]
  · unfold EventBus.IsNull
    rw [slot_publish_other bus e w hne]
    exact h

theorem isNull_subscribe_other {bus : EventBus σ} {K K' : TypeIndex} (h : bus.IsNull K)
    (c : MemberFunction σ) (hne : K ≠ K') : (bus.subscribe K' c).IsNull K := by
  unfold EventBus.IsNull
  rw [slot_subscribe_other bus c hne]
  exact h

theorem publish_of_isNull {bus : EventBus σ} {K : TypeIndex} (h : bus.IsNull K)
    (e : Event) (w : σ) :
    (bus.publish K e w).thrown = some NoSubscribers ∧ (bus.publish K e w).invoked = []
      ∧ (bus.publish K e w).world = w := by
  unfold EventBus.publish UnorderedMap.index
  rcases h with h | h <;> simp [h]

theorem publish_of_list {bus : EventBus σ} {K : TypeIndex} {l : FuncHandlerList σ}
    (h : bus.subscriber_map K = some (some l)) (e : Event) (w : σ) :
    bus.publish K e w = ⟨bus, (dispatch l e w).1, (dispatch l e w).2.1, (dispatch l e w).2.2⟩ := by
  unfold EventBus.publish UnorderedMap.index
  simp [h]

theorem run_nil (m : Machine σ) : m.run [] = m := rfl

theorem run_cons (m : Machine σ) (op : Op σ) (ops : List (Op σ)) :
    m.run (op :: ops) = (m.step op).run ops := rfl

theorem run_append (m : Machine σ) (ops ops' : List (Op σ)) :
    m.run (ops ++ ops') = (m.run ops).run ops' := by
  unfold Machine.run
  rw [List.foldl_append]

theorem subscribedTo_append (K : TypeIndex) (ops ops' : List (Op σ)) :
    subscribedTo K (ops ++ ops') = subscribedTo K ops ++ subscribedTo K ops' := by
  induction ops with
  | nil => rfl
  | cons op ops ih =>
    cases op with
    | subscribe K' c =>
      by_cases hK : K' = K <;> simp [subscribedTo, hK, ih]
    | publish K' e => simpa [subscribedTo] using ih

/-- A slot that holds a list keeps holding one, extended by the later
subscriptions to its kind. -/
theorem slot_run_of_list (ops : List (Op σ)) (m : Machine σ) (K : TypeIndex)
    (l : FuncHandlerList σ) (h : m.bus.subscriber_map K = some (some l)) :
    (m.run ops).bus.subscriber_map K = some (some (l ++ handlersFor K (subscribedTo K ops))) := by
  induction ops generalizing m l with
  | nil => simpa [run_nil, subscribedTo, handlersFor] using h
  | cons op ops ih =>
    rw [run_cons]
    cases op with
    | subscribe K' c =>
      by_cases hK : K' = K
      · subst hK
        have hs : (m.step (Op.subscribe K' c)).bus.subscriber_map K'
            = some (some (l ++ [some ⟨K', c⟩])) := by
          have hl : m.bus.handlers K' = l := by simp [EventBus.handlers, h]
          simp [Machine.step, slot_subscribe_same, hl]
        rw [ih _ _ hs]
        simp [subscribedTo, handlersFor]
      · have hs : (m.step (Op.subscribe K' c)).bus.subscriber_map K = some (some l) := by
          simp only [Machine.step]
          rw [slot_subscribe_other m.bus c (Ne.symm hK)]
          exact h
        rw [ih _ _ hs]
        simp [subscribedTo, hK]
    | publish K' e =>
      have hs : (m.step (Op.publish K' e)).bus.subscriber_map K = some (some l) := by
        simp only [Machine.step]
        by_cases hK : K = K'
        · subst hK
          rw [slot_publish_same, h]
          rfl
        · rw [slot_publish_other m.bus e m.world hK]
          exact h
      rw [ih _ _ hs]
      simp [subscribedTo]

/-- From a slot without a list: it stays so until the first subscription to its
kind, and afterwards holds exactly the handlers of the subscriptions. -/
theorem slot_run_of_isNull (ops : List (Op σ)) (m : Machine σ) (K : TypeIndex)
    (h : m.bus.IsNull K) :
    (subscribedTo K ops = [] → (m.run ops).bus.IsNull K) ∧
    (subscribedTo K ops ≠ [] →
      (m.run ops).bus.subscriber_map K = some (some (handlersFor K (subscribedTo K ops)))) := by
  induction ops generalizing m with
  | nil => exact ⟨fun _ => h, fun hne => absurd rfl hne⟩
  | cons op ops ih =>
    rw [run_cons]
    cases op with
    | subscribe K' c =>
      by_cases hK : K' = K
      · subst hK
        have hs : (m.step (Op.subscribe K' c)).bus.subscriber_map K'
            = some (some ([some ⟨K', c⟩])) := by
          simp [Machine.step, slot_subscribe_same, handlers_of_isNull h]
        refine ⟨fun h0 => by simp [subscribedTo] at h0, fun _ => ?_⟩
        rw [slot_run_of_list ops _ _ _ hs]
        simp [subscribedTo, handlersFor]
      · have hs : (m.step (Op.subscribe K' c)).bus.IsNull K :=
          isNull_subscribe_other h c (Ne.symm hK)
        simpa [subscribedTo, hK] using ih _ hs
    | publish K' e =>
      have hs : (m.step (Op.publish K' e)).bus.IsNull K := isNull_publish h K' e m.world
      simpa [subscribedTo] using ih _ hs

/-- Dispatch over the handlers of callbacks that return normally: every one
runs, in order, on the published event. -/
theorem dispatch_handlersFor (K : TypeIndex) (cs : List (MemberFunction σ)) (e : Event) (w : σ)
    (hok : ∀ c ∈ cs, NeverFails c) :
    dispatch (handlersFor K cs) e w
      = (runAll cs e w, cs.map (fun c => (⟨K, c⟩, e)), none) := by
  induction cs generalizing w with
  | nil => rfl
  | cons c cs ih =>
    have hc : (c e w).2 = none := hok c (List.mem_cons_self _ _) e w
    have ih' := ih (c e w).1 (fun c' hc' => hok c' (List.mem_cons_of_mem _ hc'))
    simp only [handlersFor, List.map_cons] at ih' ⊢
    rw [dispatch]
    simp only [MemberFunctionHandler.exec, MemberFunctionHandler.call]
    rcases hcw : c e w with ⟨w', x⟩
    rw [hcw] at hc ih'
    simp only at hc ih'
    subst hc
    simp only [ih']
    simp [runAll, hcw]

theorem handlers_iterate_subscribe (bus : EventBus σ) (K : TypeIndex) (c : MemberFunction σ)
    (N : Nat) :
    (((fun b : EventBus σ => b.subscribe K c)^[N]) bus).handlers K
      = bus.handlers K ++ List.replicate N (some ⟨K, c⟩) := by
  induction N generalizing bus with
  | zero => simp
  | succ N ih =>
    rw [Function.iterate_succ_apply, ih, handlers_subscribe_same, List.replicate_succ]
    simp

theorem slot_iterate_subscribe (bus : EventBus σ) (K : TypeIndex) (c : MemberFunction σ)
    (N : Nat) (hN : 1 ≤ N) :
    (((fun b : EventBus σ => b.subscribe K c)^[N]) bus).subscriber_map K
      = some (some (bus.handlers K ++ List.replicate N (some ⟨K, c⟩))) := by
  obtain ⟨M, rfl⟩ : ∃ M, N = M + 1 := ⟨N - 1, by omega⟩
  rw [Function.iterate_succ_apply', slot_subscribe_same, handlers_iterate_subscribe,
    List.replicate_succ']
  simp

theorem runAll_replicate (c : MemberFunction σ) (e : Event) (N : Nat) (w : σ) :
    runAll (List.replicate N c) e w = ((fun v => (c e v).1)^[N]) w := by
  induction N generalizing w with
  | zero => rfl
  | succ N ih =>
    rw [List.replicate_succ, Function.iterate_succ_apply]
    exact ih _

/-- Every call made by `dispatch` is a call of a handler of the list, on the
published event. -/
theorem dispatch_invoked_mem (l : FuncHandlerList σ) (e : Event) (w : σ) :
    ∀ p ∈ (dispatch l e w).2.1, some p.1 ∈ l ∧ p.2 = e := by
  induction l generalizing w with
  | nil => intro p hp; simp [dispatch] at hp
  | cons a l ih =>
    cases a with
    | none => intro p hp; simp [dispatch] at hp
    | some h =>
      intro p hp
      rw [dispatch] at hp
      rcases hx : h.exec e w with ⟨w', x⟩
      rw [hx] at hp
      cases x with
      | some x =>
        simp only [List.mem_singleton] at hp
        subst hp
        simp
      | none =>
        simp only [List.mem_cons] at hp
        rcases hp with rfl | hp
        · simp
        · have := ih w' p hp
          exact ⟨List.mem_cons_of_mem _ this.1, this.2⟩

/-- Every call made by `publish` is a call of a handler stored under the
published kind, on the published event. -/
theorem publish_invoked_mem (bus : EventBus σ) (K : TypeIndex) (e : Event) (w : σ) :
    ∀ p ∈ (bus.publish K e w).invoked, some p.1 ∈ bus.handlers K ∧ p.2 = e := by
  rcases h : bus.subscriber_map K with _ | _ | l
  · intro p hp
    rw [(publish_of_isNull (Or.inl h) e w).2.1] at hp
    simp at hp
  · intro p hp
    rw [(publish_of_isNull (Or.inr h) e w).2.1] at hp
    simp at hp
  · intro p hp
    rw [publish_of_list h] at hp
    have hl : bus.handlers K = l := by simp [EventBus.handlers, h]
    rw [hl]
    exact dispatch_invoked_mem l e w p hp

/-- In a bus reached from a fresh one, the handlers stored under `K` are the
handlers built for the callbacks subscribed to `K`, oldest first. -/
theorem handlers_run_init (w0 : σ) (ops : List (Op σ)) (K : TypeIndex) :
    ((Machine.init w0).run ops).bus.handlers K = handlersFor K (subscribedTo K ops) := by
  have h := slot_run_of_isNull ops (Machine.init w0) K (isNull_fresh K)
  by_cases h0 : subscribedTo K ops = []
  · rw [handlers_of_isNull (h.1 h0), h0]
    rfl
  · simp [EventBus.handlers, h.2 h0]

theorem eventType_of_mem_handlersFor {K : TypeIndex} {cs : List (MemberFunction σ)}
    {h : MemberFunctionHandler σ} (hm : some h ∈ handlersFor K cs) : h.eventType = K := by
  simp only [handlersFor, List.mem_map] at hm
  obtain ⟨c, _, hc⟩ := hm
  cases hc
  rfl

end EventSystem

/-! ## The method-pointer bus: lemmas -/

namespace EventSystem_FuncPtr

variable {ρ σ : Type}

theorem fp_slot_subscribe_other (bus : EventBus ρ σ) {K K' : TypeIndex} (r : ρ)
    (f : MemberFunction ρ σ) (hne : K' ≠ K) :
    (bus.subscribe K r f).subscriber_map K' = bus.subscriber_map K' := by
  unfold EventBus.subscribe UnorderedMap.index
  rcases h : bus.subscriber_map K with _ | _ | l <;> simp [UnorderedMap.set, h, hne]

theorem fp_slot_subscribe_same (bus : EventBus ρ σ) (K : TypeIndex) (r : ρ)
    (f : MemberFunction ρ σ) :
    (bus.subscribe K r f).subscriber_map K
      = some (some (bus.handlers K ++ [some ⟨K, r, f⟩])) := by
  unfold EventBus.subscribe EventBus.handlers UnorderedMap.index
  rcases h : bus.subscriber_map K with _ | _ | l <;> simp [UnorderedMap.set, h]

theorem fp_slot_publish_other (bus : EventBus ρ σ) {K K' : TypeIndex} (e : Option Event) (w : σ)
    (hne : K' ≠ K) : (bus.publish K e w).bus.subscriber_map K' = bus.subscriber_map K' := by
  unfold EventBus.publish UnorderedMap.index
  rcases h : bus.subscriber_map K with _ | _ | l <;> simp [UnorderedMap.set, h, hne]

theorem fp_slot_publish_same (bus : EventBus ρ σ) (K : TypeIndex) (e : Option Event) (w : σ) :
    (bus.publish K e w).bus.subscriber_map K
      = some ((bus.subscriber_map K).getD none) := by
  unfold EventBus.publish UnorderedMap.index
  rcases h : bus.subscriber_map K with _ | _ | l <;> simp [UnorderedMap.set, h]

theorem fp_publish_of_isNull {bus : EventBus ρ σ} {K : TypeIndex} (h : bus.IsNull K)
    (e : Option Event) (w : σ) :
    (bus.publish K e w).thrown = some NoSubscribers ∧ (bus.publish K e w).invoked = []
      ∧ (bus.publish K e w).world = w := by
  unfold EventBus.publish UnorderedMap.index
  rcases h with h | h <;> simp [h]

theorem fp_publish_of_list {bus : EventBus ρ σ} {K : TypeIndex} {l : FuncHandlerList ρ σ}
    (h : bus.subscriber_map K = some (some l)) (e : Option Event) (w : σ) :
    bus.publish K e w = ⟨bus, (dispatch l e w).1, (dispatch l e w).2.1, (dispatch l e w).2.2⟩ := by
  unfold EventBus.publish UnorderedMap.index
  simp [h]

theorem fp_run_cons (m : Machine ρ σ) (op : Op ρ σ) (ops : List (Op ρ σ)) :
    m.run (op :: ops) = (m.step op).run ops := rfl

end EventSystem_FuncPtr

namespace EventSystem

/-- When no handler of the list fails, the calls made by `dispatch` and the way
it ends do not depend on the world it starts in. -/
theorem dispatch_indep {σ : Type} (l : FuncHandlerList σ) (e : Event)
    (hok : ∀ h, some h ∈ l → NeverFails h.member_func) (w w' : σ) :
    (dispatch l e w).2 = (dispatch l e w').2 := by
  induction l generalizing w w' with
  | nil => rfl
  | cons a l ih =>
    cases a with
    | none => rfl
    | some h =>
      have hh : NeverFails h.member_func := hok h (List.mem_cons_self _ _)
      have ih' := ih (fun h' hm => hok h' (List.mem_cons_of_mem _ hm))
      rw [dispatch, dispatch]
      have h1 : (h.exec e w).2 = none := hh e w
      have h2 : (h.exec e w').2 = none := hh e w'
      rcases hx : h.exec e w with ⟨v, x⟩
      rcases hx' : h.exec e w' with ⟨v', x'⟩
      rw [hx] at h1
      rw [hx'] at h2
      simp only at h1 h2
      subst h1
      subst h2
      simp only
      rw [ih' v v']

end EventSystem

/-! ## Simulation between the two variants -/

section Simulation

variable {ρ σ : Type}

theorem dispatch_corr (l : EventSystem.FuncHandlerList σ)
    (l' : EventSystem_FuncPtr.FuncHandlerList ρ σ)
    (hl : List.Forall₂ (Option.Rel HandlerCorr) l l') (e : Event) (w : σ) :
    (EventSystem.dispatch l e w).1 = (EventSystem_FuncPtr.dispatch l' (some e) w).1
      ∧ List.Forall₂ CallCorr (EventSystem.dispatch l e w).2.1
          (EventSystem_FuncPtr.dispatch l' (some e) w).2.1
      ∧ (EventSystem.dispatch l e w).2.2 = (EventSystem_FuncPtr.dispatch l' (some e) w).2.2 := by
  induction hl generalizing w with
  | nil => exact ⟨rfl, List.Forall₂.nil, rfl⟩
  | cons hab _ ih =>
    cases hab with
    | none => exact ⟨rfl, List.Forall₂.nil, rfl⟩
    | some hh =>
      rename_i h h'
      rw [EventSystem.dispatch, EventSystem_FuncPtr.dispatch]
      have hx : h.exec e w = h'.exec (some e) w := hh.2 e w
      rw [← hx]
      rcases h.exec e w with ⟨w', x⟩
      cases x with
      | some x => exact ⟨rfl, List.Forall₂.cons ⟨hh, rfl⟩ List.Forall₂.nil, rfl⟩
      | none =>
        have := ih w'
        exact ⟨this.1, List.Forall₂.cons ⟨hh, rfl⟩ this.2.1, this.2.2⟩

theorem slotCorr_handlers {bus : EventSystem.EventBus σ} {bus' : EventSystem_FuncPtr.EventBus ρ σ}
    {K : TypeIndex} (h : SlotCorr (bus.subscriber_map K) (bus'.subscriber_map K)) :
    List.Forall₂ (Option.Rel HandlerCorr) (bus.handlers K) (bus'.handlers K) := by
  unfold EventSystem.EventBus.handlers EventSystem_FuncPtr.EventBus.handlers
  rcases hc : bus.subscriber_map K with _ | _ | l <;>
    rcases hc' : bus'.subscriber_map K with _ | _ | l' <;>
    rw [hc, hc'] at h <;> simp [SlotCorr] at h ⊢
  exact h

theorem step_corr {m : EventSystem.Machine σ} {m' : EventSystem_FuncPtr.Machine ρ σ}
    (hm : MachineCorr m m') {op : EventSystem.Op σ} {op' : EventSystem_FuncPtr.Op ρ σ}
    (hop : OpCorr op op') : MachineCorr (m.step op) (m'.step op') := by
  obtain ⟨hbus, hw, hf, hi⟩ := hm
  cases hop with
  | subscribe K c r f hc =>
    refine ⟨?_, hw, hf, hi⟩
    intro K'
    simp only [EventSystem.Machine.step, EventSystem_FuncPtr.Machine.step]
    by_cases hK : K' = K
    · subst hK
      rw [EventSystem.slot_subscribe_same, EventSystem_FuncPtr.fp_slot_subscribe_same]
      exact List.rel_append (slotCorr_handlers (hbus K'))
        (List.Forall₂.cons (Option.Rel.some ⟨rfl, hc⟩) List.Forall₂.nil)
    · rw [EventSystem.slot_subscribe_other _ _ hK, EventSystem_FuncPtr.fp_slot_subscribe_other _ _ _ hK]
      exact hbus K'
  | publish K e =>
    have hslot : ∀ K', SlotCorr ((m.bus.publish K e m.world).bus.subscriber_map K')
        ((m'.bus.publish K (some e) m'.world).bus.subscriber_map K') := by
      intro K'
      by_cases hK : K' = K
      · subst hK
        rw [EventSystem.slot_publish_same, EventSystem_FuncPtr.fp_slot_publish_same]
        have := hbus K'
        rcases hc : m.bus.subscriber_map K' with _ | _ | l <;>
          rcases hc' : m'.bus.subscriber_map K' with _ | _ | l' <;>
          rw [hc, hc'] at this <;> simp [SlotCorr] at this ⊢
        exact this
      · rw [EventSystem.slot_publish_other _ _ _ hK, EventSystem_FuncPtr.fp_slot_publish_other _ _ _ hK]
        exact hbus K'
    have hK := hbus K
    refine ⟨hslot, ?_⟩
    show (m.bus.publish K e m.world).world = (m'.bus.publish K (some e) m'.world).world
      ∧ m.results ++ [(m.bus.publish K e m.world).thrown]
        = m'.results ++ [(m'.bus.publish K (some e) m'.world).thrown]
      ∧ List.Forall₂ CallCorr (m.invoked ++ (m.bus.publish K e m.world).invoked)
        (m'.invoked ++ (m'.bus.publish K (some e) m'.world).invoked)
    rw [← hw, ← hf]
    rcases hc : m.bus.subscriber_map K with _ | _ | l <;>
      rcases hc' : m'.bus.subscriber_map K with _ | _ | l' <;>
      rw [hc, hc'] at hK <;> simp only [SlotCorr] at hK
    · rw [(EventSystem.publish_of_isNull (Or.inl hc) e m.world).1,
        (EventSystem.publish_of_isNull (Or.inl hc) e m.world).2.1,
        (EventSystem.publish_of_isNull (Or.inl hc) e m.world).2.2,
        (EventSystem_FuncPtr.fp_publish_of_isNull (Or.inl hc') (some e) m.world).1,
        (EventSystem_FuncPtr.fp_publish_of_isNull (Or.inl hc') (some e) m.world).2.1,
        (EventSystem_FuncPtr.fp_publish_of_isNull (Or.inl hc') (some e) m.world).2.2]
      exact ⟨rfl, rfl, by simpa using hi⟩
    · rw [(EventSystem.publish_of_isNull (Or.inr hc) e m.world).1,
        (EventSystem.publish_of_isNull (Or.inr hc) e m.world).2.1,
        (EventSystem.publish_of_isNull (Or.inr hc) e m.world).2.2,
        (EventSystem_FuncPtr.fp_publish_of_isNull (Or.inr hc') (some e) m.world).1,
        (EventSystem_FuncPtr.fp_publish_of_isNull (Or.inr hc') (some e) m.world).2.1,
        (EventSystem_FuncPtr.fp_publish_of_isNull (Or.inr hc') (some e) m.world).2.2]
      exact ⟨rfl, rfl, by simpa using hi⟩
    · have hd := dispatch_corr l l' hK e m.world
      rw [EventSystem.publish_of_list hc, EventSystem_FuncPtr.fp_publish_of_list hc']
      exact ⟨hd.1, by rw [hd.2.2], List.rel_append hi hd.2.1⟩

theorem run_corr {ops : List (EventSystem.Op σ)} {ops' : List (EventSystem_FuncPtr.Op ρ σ)}
    (hops : List.Forall₂ OpCorr ops ops') (m : EventSystem.Machine σ)
    (m' : EventSystem_FuncPtr.Machine ρ σ) (hm : MachineCorr m m') :
    MachineCorr (m.run ops) (m'.run ops') := by
  induction hops generalizing m m' with
  | nil => exact hm
  | cons hop _ ih =>
    rw [EventSystem.run_cons, EventSystem_FuncPtr.fp_run_cons]
    exact ih _ _ (step_corr hm hop)

end Simulation

/-! ## The collision loops: lemmas -/

section Loops

variable {β : Type}

theorem wrapInt_natCast {k : Nat} (h : k < 2 ^ 31) : wrapInt (k : Int) = k := by
  unfold wrapInt
  omega

theorem isInt_wrapInt (x : Int) : IsInt (wrapInt x) := by
  unfold IsInt wrapInt
  omega

theorem toSizeT_natCast {k : Nat} (h : k < 2 ^ 64) : toSizeT (k : Int) = k := by
  unfold toSizeT
  omega

theorem toSizeT_wrapInt_natCast_lt {k n : Nat} (hk : k ≤ n) (hn : n ≤ 2 ^ 31) :
    toSizeT (wrapInt (k : Int)) < n ↔ k < n := by
  unfold toSizeT wrapInt
  omega

theorem sizeMinusOne_pos {n : Nat} (h1 : 1 ≤ n) (h2 : n < 2 ^ 64) : sizeMinusOne n = n - 1 := by
  unfold sizeMinusOne
  omega

theorem toSizeT_mod_256 (x : Int) : toSizeT x % 256 = toUInt8 x := by
  unfold toSizeT toUInt8
  omega

theorem toSizeT_of_isInt {j : Int} (h : IsInt j) :
    toSizeT j < 2 ^ 31 ∨ 2 ^ 64 - 2 ^ 31 ≤ toSizeT j := by
  unfold IsInt at h
  unfold toSizeT
  omega

theorem vectorAt_of_lt {v : List Nat} {i : Nat} (h : i < v.length) :
    vectorAt v i = Except.ok v[i] := by
  unfold vectorAt
  rw [List.getElem?_eq_getElem h]

theorem vectorAt_of_ge {v : List Nat} {i : Nat} (h : v.length ≤ i) :
    vectorAt v i = Except.error (Exception.out_of_range "vector::_M_range_check") := by
  unfold vectorAt
  rw [List.getElem?_eq_none h]

/-- One turn of the inner loop with both indices in range. -/
theorem innerLoop_step (publish : Event → β → β × Option Exception) (entities : List Nat)
    (i j : Int) (fuel : Nat) (s : Update β) (hi : toSizeT i < entities.length)
    (hj : toSizeT j < entities.length) :
    innerLoop publish entities i (fuel + 1) j s
      = if entities[toSizeT i]? = entities[toSizeT j]? then
          match (publish (CollisionEvent i j) s.env).2 with
          | some x =>
            some (⟨(publish (CollisionEvent i j) s.env).1,
              s.published ++ [(toSizeT i, toSizeT j, CollisionEvent i j)]⟩, some x)
          | none =>
            innerLoop publish entities i fuel (wrapInt (j + 1))
              ⟨(publish (CollisionEvent i j) s.env).1,
                s.published ++ [(toSizeT i, toSizeT j, CollisionEvent i j)]⟩
        else innerLoop publish entities i fuel (wrapInt (j + 1)) s := by
  rw [innerLoop, if_pos hj, vectorAt_of_lt hi, vectorAt_of_lt hj,
    List.getElem?_eq_getElem hi, List.getElem?_eq_getElem hj]
  simp only [Option.some.injEq]

/-- The inner loop ends as soon as `j`, converted, is not below the size. -/
theorem innerLoop_exit (publish : Event → β → β × Option Exception) (entities : List Nat)
    (i j : Int) (fuel : Nat) (s : Update β) (hj : ¬ toSizeT j < entities.length) :
    innerLoop publish entities i (fuel + 1) j s = some (s, none) := by
  rw [innerLoop, if_neg hj]

theorem publishAll_append (publish : Event → β → β × Option Exception) (l l' : List Event)
    (g : β) : publishAll publish (l ++ l') g = publishAll publish l' (publishAll publish l g) := by
  unfold publishAll
  rw [List.foldl_append]

/-- The inner loop for a row `i`, from column `k` on, on a list of at most
`2 ^ 31` entities and with a `publish` that does not throw: it returns, having
published the matching pairs of the row from `k` on, by increasing column. -/
theorem innerLoop_spec (publish : Event → β → β × Option Exception) (Inv : β → Prop)
    (hpub : ∀ e g, Inv g → (publish e g).2 = none ∧ Inv (publish e g).1)
    (entities : List Nat) (hn : entities.length ≤ 2 ^ 31) (i : Nat) (hi : i < entities.length) :
    ∀ (d k fuel : Nat) (s : Update β), k + d = entities.length → d < fuel → Inv s.env →
      innerLoop publish entities (i : Int) fuel (wrapInt (k : Int)) s
        = some (⟨publishAll publish ((rowFrom entities i d k).map fun p => (publishedAt p).2.2) s.env,
            s.published ++ (rowFrom entities i d k).map publishedAt⟩, none)
        ∧ Inv (publishAll publish ((rowFrom entities i d k).map fun p => (publishedAt p).2.2) s.env) := by
  have hi' : toSizeT (i : Int) = i := toSizeT_natCast (by omega)
  intro d
  induction d with
  | zero =>
    intro k fuel s hk hf hinv
    obtain ⟨f, rfl⟩ : ∃ f, fuel = f + 1 := ⟨fuel - 1, by omega⟩
    have hx : ¬ toSizeT (wrapInt (k : Int)) < entities.length := by
      rw [toSizeT_wrapInt_natCast_lt (by omega) hn]
      omega
    rw [innerLoop_exit _ _ _ _ _ _ hx]
    simpa [rowFrom, publishAll] using hinv
  | succ d ih =>
    intro k fuel s hk hf hinv
    obtain ⟨f, rfl⟩ : ∃ f, fuel = f + 1 := ⟨fuel - 1, by omega⟩
    have hk31 : k < 2 ^ 31 := by omega
    have hw : wrapInt (k : Int) = k := wrapInt_natCast hk31
    have hk' : toSizeT (k : Int) = k := toSizeT_natCast (by omega)
    have hnext : wrapInt ((k : Int) + 1) = wrapInt ((k + 1 : Nat) : Int) := by
      push_cast
      rfl
    rw [hw, innerLoop_step publish entities i k f s (by rw [hi']; exact hi)
      (by rw [hk']; omega), hi', hk', hnext]
    by_cases hm : entities[i]? = entities[k]?
    · rw [if_pos hm]
      have hp := hpub (CollisionEvent (i : Int) (k : Int)) s.env hinv
      rw [hp.1]
      simp only
      have := ih (k + 1) f ⟨(publish (CollisionEvent (i : Int) (k : Int)) s.env).1,
        s.published ++ [(i, k, CollisionEvent (i : Int) (k : Int))]⟩ (by omega) (by omega) hp.2
      rw [this.1]
      refine ⟨?_, ?_⟩
      · simp [rowFrom, hm, publishAll, publishedAt]
      · simpa [rowFrom, hm, publishAll, publishedAt] using this.2
    · rw [if_neg hm]
      have := ih (k + 1) f s (by omega) (by omega) hinv
      rw [this.1]
      refine ⟨?_, ?_⟩
      · simp [rowFrom, hm]
      · simpa [rowFrom, hm] using this.2

/-- The outer loop from row `i` on, on a list of `1` to `2 ^ 31` entities and
with a `publish` that does not throw: it returns, having published the matching
pairs of the rows from `i` on, row by row. -/
theorem outerLoop_spec (publish : Event → β → β × Option Exception) (Inv : β → Prop)
    (hpub : ∀ e g, Inv g → (publish e g).2 = none ∧ Inv (publish e g).1)
    (entities : List Nat) (h1 : 1 ≤ entities.length) (hn : entities.length ≤ 2 ^ 31) :
    ∀ (d i fuel : Nat) (s : Update β), i + d = entities.length - 1 → d < fuel → Inv s.env →
      outerLoop publish entities fuel (wrapInt (i : Int)) s
        = some (⟨publishAll publish ((rowsFrom entities d i).map fun p => (publishedAt p).2.2) s.env,
            s.published ++ (rowsFrom entities d i).map publishedAt⟩, none)
        ∧ Inv (publishAll publish ((rowsFrom entities d i).map fun p => (publishedAt p).2.2) s.env) := by
  have hsz : sizeMinusOne entities.length = entities.length - 1 :=
    sizeMinusOne_pos h1 (by omega)
  intro d
  induction d with
  | zero =>
    intro i fuel s hi hf hinv
    obtain ⟨f, rfl⟩ : ∃ f, fuel = f + 1 := ⟨fuel - 1, by omega⟩
    rw [wrapInt_natCast (by omega), outerLoop, toSizeT_natCast (by omega), hsz,
      if_neg (by omega)]
    simpa [rowsFrom, publishAll] using hinv
  | succ d ih =>
    intro i fuel s hi hf hinv
    obtain ⟨f, rfl⟩ : ∃ f, fuel = f + 1 := ⟨fuel - 1, by omega⟩
    have hnext : wrapInt ((i : Int) + 1) = wrapInt ((i + 1 : Nat) : Int) := by
      push_cast
      rfl
    have hin := innerLoop_spec publish Inv hpub entities hn i (by omega)
      (entities.length - (i + 1)) (i + 1) intValues s (by omega)
      (by unfold intValues; omega) hinv
    rw [wrapInt_natCast (by omega), outerLoop, toSizeT_natCast (by omega), hsz,
      if_pos (by omega), hnext, hin.1]
    simp only
    have := ih (i + 1) f
      ⟨publishAll publish ((rowFrom entities i (entities.length - (i + 1)) (i + 1)).map
          fun p => (publishedAt p).2.2) s.env,
        s.published ++ (rowFrom entities i (entities.length - (i + 1)) (i + 1)).map publishedAt⟩
      (by omega) (by omega) hin.2
    rw [this.1]
    refine ⟨?_, ?_⟩
    · simp [rowsFrom, publishAll]
    · simpa [rowsFrom, publishAll] using this.2

/-- The two loops on a list of `1` to `2 ^ 31` entities with a `publish` that
does not throw: they return, having published all matching pairs, row by row. -/
theorem collisionLoops_spec (publish : Event → β → β × Option Exception) (Inv : β → Prop)
    (hpub : ∀ e g, Inv g → (publish e g).2 = none ∧ Inv (publish e g).1)
    (entities : List Nat) (h1 : 1 ≤ entities.length) (hn : entities.length ≤ 2 ^ 31)
    (env : β) (hinv : Inv env) :
    collisionLoops publish entities env
      = some (⟨publishAll publish
            ((rowsFrom entities (entities.length - 1) 0).map fun p => (publishedAt p).2.2) env,
          (rowsFrom entities (entities.length - 1) 0).map publishedAt⟩, none) := by
  have h := (outerLoop_spec publish Inv hpub entities h1 hn (entities.length - 1) 0 intValues
    ⟨env, []⟩ (by omega) (by unfold intValues; omega) hinv).1
  have h0 : wrapInt ((0 : Nat) : Int) = 0 := rfl
  rw [h0] at h
  unfold collisionLoops
  rw [h]
  simp

theorem mem_rowFrom (entities : List Nat) (i : Nat) (p : Nat × Nat) :
    ∀ (d k : Nat), p ∈ rowFrom entities i d k
      ↔ p.1 = i ∧ k ≤ p.2 ∧ p.2 < k + d ∧ entities[i]? = entities[p.2]? := by
  intro d
  induction d with
  | zero =>
    intro k
    simp only [rowFrom, List.not_mem_nil, false_iff]
    omega
  | succ d ih =>
    intro k
    rw [rowFrom, List.mem_append, ih (k + 1)]
    constructor
    · rintro (h | ⟨h1, h2, h3, h4⟩)
      · split at h
        · rename_i hm
          simp only [List.mem_singleton] at h
          subst h
          exact ⟨rfl, le_refl _, by simp, hm⟩
        · simp at h
      · exact ⟨h1, by omega, by omega, h4⟩
    · rintro ⟨h1, h2, h3, h4⟩
      by_cases hk : p.2 = k
      · left
        rw [← hk, if_pos h4]
        simp [Prod.ext_iff, h1]
      · right
        exact ⟨h1, by omega, by omega, h4⟩

theorem mem_rowsFrom (entities : List Nat) (p : Nat × Nat) :
    ∀ (d i : Nat), i + d ≤ entities.length → (p ∈ rowsFrom entities d i
      ↔ i ≤ p.1 ∧ p.1 < i + d ∧ p.1 < p.2 ∧ p.2 < entities.length
        ∧ entities[p.1]? = entities[p.2]?) := by
  intro d
  induction d with
  | zero =>
    intro i _
    simp only [rowsFrom, List.not_mem_nil, false_iff]
    omega
  | succ d ih =>
    intro i hi
    rw [rowsFrom, List.mem_append, ih (i + 1) (by omega), mem_rowFrom]
    constructor
    · rintro (⟨h1, h2, h3, h4⟩ | ⟨h1, h2, h3, h4, h5⟩)
      · rw [h1]
        exact ⟨le_refl _, by omega, by omega, by omega, h4⟩
      · exact ⟨by omega, by omega, h3, h4, h5⟩
    · rintro ⟨h1, h2, h3, h4, h5⟩
      by_cases hk : p.1 = i
      · left
        rw [hk] at h3 h5
        exact ⟨hk, by omega, by omega, h5⟩
      · right
        exact ⟨by omega, by omega, h3, h4, h5⟩

theorem pairwise_rowFrom (entities : List Nat) (i : Nat) :
    ∀ (d k : Nat), (rowFrom entities i d k).Pairwise lexLt := by
  intro d
  induction d with
  | zero => intro k; simp [rowFrom]
  | succ d ih =>
    intro k
    rw [rowFrom, List.pairwise_append]
    refine ⟨?_, ih (k + 1), ?_⟩
    · split <;> simp
    · intro a ha b hb
      rw [mem_rowFrom] at hb
      split at ha
      · simp only [List.mem_singleton] at ha
        subst ha
        right
        exact ⟨hb.1.symm, by simp only; omega⟩
      · simp at ha

theorem pairwise_rowsFrom (entities : List Nat) :
    ∀ (d i : Nat), i + d ≤ entities.length → (rowsFrom entities d i).Pairwise lexLt := by
  intro d
  induction d with
  | zero => intro i _; simp [rowsFrom]
  | succ d ih =>
    intro i hi
    rw [rowsFrom, List.pairwise_append]
    refine ⟨pairwise_rowFrom entities i _ _, ih (i + 1) (by omega), ?_⟩
    intro a ha b hb
    rw [mem_rowFrom] at ha
    rw [mem_rowsFrom entities b d (i + 1) (by omega)] at hb
    left
    omega

theorem map_index_publishedAt (l : List (Nat × Nat)) :
    (l.map publishedAt).map (fun q => (q.1, q.2.1)) = l := by
  induction l with
  | nil => rfl
  | cons a l ih =>
    rw [List.map_cons, List.map_cons, ih]
    rfl

/-- Whatever `publish` does, the entries the inner loop adds to the log come from
`int` counters that index equal elements. -/
theorem innerLoop_published (publish : Event → β → β × Option Exception) (entities : List Nat)
    (i : Int) (hi : IsInt i) :
    ∀ (fuel : Nat) (j : Int) (s : Update β) (r : Update β × Option Exception), IsInt j →
      innerLoop publish entities i fuel j s = some r →
      ∃ l, r.1.published = s.published ++ l ∧ ∀ q ∈ l, IsCollisionEntry entities q := by
  intro fuel
  induction fuel with
  | zero =>
    intro j s r _ h
    simp [innerLoop] at h
  | succ f ih =>
    intro j s r hj h
    by_cases hjn : toSizeT j < entities.length
    · by_cases hin : toSizeT i < entities.length
      · rw [innerLoop_step publish entities i j f s hin hjn] at h
        by_cases hm : entities[toSizeT i]? = entities[toSizeT j]?
        · rw [if_pos hm] at h
          have hq : IsCollisionEntry entities (toSizeT i, toSizeT j, CollisionEvent i j) :=
            ⟨i, j, hi, hj, rfl, hin, hjn, hm⟩
          rcases hx : (publish (CollisionEvent i j) s.env).2 with _ | x
          · rw [hx] at h
            obtain ⟨l, hl, hall⟩ := ih _ _ r (isInt_wrapInt _) h
            refine ⟨(toSizeT i, toSizeT j, CollisionEvent i j) :: l, ?_, ?_⟩
            · rw [hl]
              simp
            · intro q hq'
              rcases List.mem_cons.1 hq' with rfl | hq'
              · exact hq
              · exact hall q hq'
          · rw [hx] at h
            simp only [Option.some.injEq] at h
            subst h
            exact ⟨[(toSizeT i, toSizeT j, CollisionEvent i j)], rfl, by simpa using hq⟩
        · rw [if_neg hm] at h
          exact ih _ _ r (isInt_wrapInt _) h
      · rw [innerLoop, if_pos hjn, vectorAt_of_ge (by omega)] at h
        simp only [Option.some.injEq] at h
        subst h
        exact ⟨[], by simp, by simp⟩
    · rw [innerLoop_exit _ _ _ _ _ _ hjn] at h
      simp only [Option.some.injEq] at h
      subst h
      exact ⟨[], by simp, by simp⟩

/-- Whatever `publish` does, the entries the outer loop adds to the log come from
`int` counters that index equal elements. -/
theorem outerLoop_published (publish : Event → β → β × Option Exception) (entities : List Nat) :
    ∀ (fuel : Nat) (i : Int) (s : Update β) (r : Update β × Option Exception), IsInt i →
      outerLoop publish entities fuel i s = some r →
      ∃ l, r.1.published = s.published ++ l ∧ ∀ q ∈ l, IsCollisionEntry entities q := by
  intro fuel
  induction fuel with
  | zero =>
    intro i s r _ h
    simp [outerLoop] at h
  | succ f ih =>
    intro i s r hi h
    rw [outerLoop] at h
    by_cases hc : toSizeT i < sizeMinusOne entities.length
    · rw [if_pos hc] at h
      rcases hin : innerLoop publish entities i intValues (wrapInt (i + 1)) s with _ | ⟨s', x⟩
      · rw [hin] at h
        simp at h
      · rw [hin] at h
        obtain ⟨l, hl, hall⟩ := innerLoop_published publish entities i hi _ _ s (s', x)
          (isInt_wrapInt _) hin
        cases x with
        | some x =>
          simp only [Option.some.injEq] at h
          subst h
          exact ⟨l, hl, hall⟩
        | none =>
          simp only at h
          obtain ⟨l', hl', hall'⟩ := ih _ _ r (isInt_wrapInt _) h
          refine ⟨l ++ l', ?_, ?_⟩
          · rw [hl', hl]
            simp
          · intro q hq
            rcases List.mem_append.1 hq with hq | hq
            · exact hall q hq
            · exact hall' q hq
    · rw [if_neg hc] at h
      simp only [Option.some.injEq] at h
      subst h
      exact ⟨[], by simp, by simp⟩

/-- Whatever `publish` does, every entry of the log of the two loops comes from
`int` counters that index equal elements. -/
theorem collisionLoops_published (publish : Event → β → β × Option Exception)
    (entities : List Nat) (env : β) (r : Update β × Option Exception)
    (h : collisionLoops publish entities env = some r) :
    ∀ q ∈ r.1.published, IsCollisionEntry entities q := by
  obtain ⟨l, hl, hall⟩ := outerLoop_published publish entities intValues 0 ⟨env, []⟩ r
    (by unfold IsInt; omega) h
  intro q hq
  rw [hl] at hq
  exact hall q (by simpa using hq)

theorem stepsToMinusOne_zero {j : Int} (hj : IsInt j) (h : stepsToMinusOne j = 0) :
    toSizeT j = 2 ^ 64 - 1 := by
  unfold IsInt at hj
  unfold stepsToMinusOne at h
  unfold toSizeT
  omega

theorem stepsToMinusOne_succ {j : Int} {m : Nat} (hj : IsInt j)
    (h : stepsToMinusOne j = m + 1) : stepsToMinusOne (wrapInt (j + 1)) = m := by
  unfold IsInt at hj
  unfold stepsToMinusOne at h ⊢
  unfold wrapInt
  omega

theorem stepsToMinusOne_lt (j : Int) : stepsToMinusOne j < intValues := by
  unfold stepsToMinusOne intValues
  omega

/-- The inner loop ends, whatever `publish` does: by the time the counter is
`-1` its conversion is not below the size of a vector. -/
theorem innerLoop_total (publish : Event → β → β × Option Exception) (entities : List Nat)
    (hlen : entities.length < 2 ^ 64) (i : Int) :
    ∀ (m fuel : Nat) (j : Int) (s : Update β), IsInt j → stepsToMinusOne j = m → m < fuel →
      ∃ r, innerLoop publish entities i fuel j s = some r := by
  intro m
  induction m with
  | zero =>
    intro fuel j s hj hm hf
    obtain ⟨f, rfl⟩ : ∃ f, fuel = f + 1 := ⟨fuel - 1, by omega⟩
    have := stepsToMinusOne_zero hj hm
    exact ⟨_, innerLoop_exit _ _ _ _ _ _ (by omega)⟩
  | succ m ih =>
    intro fuel j s hj hm hf
    obtain ⟨f, rfl⟩ : ∃ f, fuel = f + 1 := ⟨fuel - 1, by omega⟩
    have hnext := stepsToMinusOne_succ hj hm
    by_cases hjn : toSizeT j < entities.length
    · by_cases hin : toSizeT i < entities.length
      · rw [innerLoop_step publish entities i j f s hin hjn]
        by_cases hmt : entities[toSizeT i]? = entities[toSizeT j]?
        · rw [if_pos hmt]
          rcases hx : (publish (CollisionEvent i j) s.env).2 with _ | x
          · exact ih f _ _ (isInt_wrapInt _) hnext (by omega)
          · exact ⟨_, rfl⟩
        · rw [if_neg hmt]
          exact ih f _ _ (isInt_wrapInt _) hnext (by omega)
      · rw [innerLoop, if_pos hjn, vectorAt_of_ge (by omega)]
        exact ⟨_, rfl⟩
    · exact ⟨_, innerLoop_exit _ _ _ _ _ _ hjn⟩

/-- The outer loop ends, whatever `publish` does. -/
theorem outerLoop_total (publish : Event → β → β × Option Exception) (entities : List Nat)
    (hlen : entities.length < 2 ^ 64) :
    ∀ (m fuel : Nat) (i : Int) (s : Update β), IsInt i → stepsToMinusOne i = m → m < fuel →
      ∃ r, outerLoop publish entities fuel i s = some r := by
  have hsz : sizeMinusOne entities.length ≤ 2 ^ 64 - 1 := by
    unfold sizeMinusOne
    omega
  intro m
  induction m with
  | zero =>
    intro fuel i s hi hm hf
    obtain ⟨f, rfl⟩ : ∃ f, fuel = f + 1 := ⟨fuel - 1, by omega⟩
    have := stepsToMinusOne_zero hi hm
    rw [outerLoop, if_neg (by omega)]
    exact ⟨_, rfl⟩
  | succ m ih =>
    intro fuel i s hi hm hf
    obtain ⟨f, rfl⟩ : ∃ f, fuel = f + 1 := ⟨fuel - 1, by omega⟩
    have hnext := stepsToMinusOne_succ hi hm
    rw [outerLoop]
    by_cases hc : toSizeT i < sizeMinusOne entities.length
    · rw [if_pos hc]
      obtain ⟨⟨s', x⟩, hin⟩ := innerLoop_total publish entities hlen i _ intValues
        (wrapInt (i + 1)) s (isInt_wrapInt _) rfl (stepsToMinusOne_lt _)
      rw [hin]
      cases x with
      | some x => exact ⟨_, rfl⟩
      | none => exact ih f _ _ (isInt_wrapInt _) hnext (by omega)
    · rw [if_neg hc]
      exact ⟨_, rfl⟩

/-- The two loops end on every vector, whatever `publish` does. -/
theorem collisionLoops_total (publish : Event → β → β × Option Exception) (entities : List Nat)
    (hlen : entities.length < 2 ^ 64) (env : β) :
    ∃ r, collisionLoops publish entities env = some r :=
  outerLoop_total publish entities hlen _ intValues 0 ⟨env, []⟩ (by unfold IsInt; omega) rfl
    (stepsToMinusOne_lt _)

/-- The fields of an entry written by the loops: the indices reduced modulo 256. -/
theorem fields_of_isCollisionEntry {entities : List Nat} {q : Nat × Nat × Event}
    (h : IsCollisionEntry entities q) :
    q.2.2.dynType = typeidCollisionEvent ∧ q.2.2.entity_1 = q.1 % 256
      ∧ q.2.2.entity_2 = q.2.1 % 256 ∧ q.1 < entities.length ∧ q.2.1 < entities.length
      ∧ entities[q.1]? = entities[q.2.1]? := by
  obtain ⟨i, j, _, _, rfl, h1, h2, h3⟩ := h
  refine ⟨rfl, ?_, ?_, h1, h2, h3⟩
  · simp [CollisionEvent, Event.entity_1, toSizeT_mod_256]
  · simp [CollisionEvent, Event.entity_2, toSizeT_mod_256]

end Loops

/-! ## The demo on the closure bus: lemmas -/

namespace EventSystem

variable {σ : Type}

/-- With one subscriber that returns normally, the statement
`event_bus.publish(..)` calls it once, returns, and leaves the bus as it is. -/
theorem globals_publish_one (c : MemberFunction σ) (hc : NeverFails c) (e : Event)
    (g : Globals σ)
    (hg : g.event_bus.subscriber_map typeidCollisionEvent
      = some (some [some ⟨typeidCollisionEvent, c⟩])) :
    (Globals.publish e g).2 = none
      ∧ (Globals.publish e g).1.event_bus = g.event_bus
      ∧ (Globals.publish e g).1.invoked = g.invoked ++ [(⟨typeidCollisionEvent, c⟩, e)] := by
  have hd := dispatch_handlersFor typeidCollisionEvent [c] e g.world
    (fun c' hc' => by rw [List.mem_singleton.1 hc']; exact hc)
  have hl : handlersFor typeidCollisionEvent [c]
      = [some (⟨typeidCollisionEvent, c⟩ : MemberFunctionHandler σ)] := rfl
  rw [hl] at hd
  unfold Globals.publish
  rw [publish_of_list hg, hd]
  exact ⟨rfl, rfl, rfl⟩

/-- With one subscriber that returns normally, publishing a list of events
calls it once for every event, in order. -/
theorem publishAll_invoked (c : MemberFunction σ) (hc : NeverFails c) (evs : List Event) :
    ∀ (g : Globals σ), g.event_bus.subscriber_map typeidCollisionEvent
        = some (some [some ⟨typeidCollisionEvent, c⟩]) →
      (publishAll Globals.publish evs g).invoked
        = g.invoked ++ evs.map (fun e => (⟨typeidCollisionEvent, c⟩, e)) := by
  induction evs with
  | nil => intro g _; simp [publishAll]
  | cons e evs ih =>
    intro g hg
    have h1 := globals_publish_one c hc e g hg
    have h2 := ih (Globals.publish e g).1 (by rw [h1.2.1]; exact hg)
    rw [h1.2.2] at h2
    simpa [publishAll] using h2

end EventSystem

/-! ## Where an exception that leaves `publish` comes from -/

namespace EventSystem

variable {σ : Type}

/-- Over a list without null elements, an exception that ends `dispatch` is the
one thrown by the handler called last. -/
theorem dispatch_thrown_origin (l : FuncHandlerList σ) (e : Event)
    (hl : ∀ a ∈ l, a ≠ none) :
    ∀ (w : σ) (x : Exception), (dispatch l e w).2.2 = some x →
      ∃ h w', some h ∈ l ∧ (dispatch l e w).2.1.getLast? = some (h, e)
        ∧ h.member_func e w' = ((dispatch l e w).1, some x) := by
  induction l with
  | nil =>
    intro w x hx
    simp [dispatch] at hx
  | cons a l ih =>
    intro w x hx
    cases a with
    | none => exact absurd rfl (hl none (List.mem_cons_self _ _))
    | some h =>
      rw [dispatch] at hx ⊢
      rcases hc : h.exec e w with ⟨w', y⟩
      rw [hc] at hx
      cases y with
      | some y =>
        dsimp only at hx ⊢
        simp only [Option.some.injEq] at hx
        subst hx
        exact ⟨h, w, List.mem_cons_self _ _, rfl, hc⟩
      | none =>
        dsimp only at hx ⊢
        obtain ⟨h', w'', hm, hlast, hrun⟩ :=
          ih (fun a ha => hl a (List.mem_cons_of_mem _ ha)) w' x hx
        refine ⟨h', w'', List.mem_cons_of_mem _ hm, ?_, hrun⟩
        rw [List.getLast?_cons, hlast]
        rfl

/-- Over a list that starts with a handler, `dispatch` makes at least one call. -/
theorem dispatch_invoked_ne_nil (h : MemberFunctionHandler σ) (l : FuncHandlerList σ)
    (e : Event) (w : σ) : (dispatch (some h :: l) e w).2.1 ≠ [] := by
  rw [dispatch]
  rcases h.exec e w with ⟨w', y⟩
  cases y <;> simp

theorem none_not_mem_handlersFor (K : TypeIndex) (cs : List (MemberFunction σ)) :
    ∀ a ∈ handlersFor K cs, a ≠ none := by
  intro a ha
  simp only [handlersFor, List.mem_map] at ha
  obtain ⟨c, _, rfl⟩ := ha
  simp

/-- In a bus reached from a fresh one, a slot holds no list, or the list of the
handlers of a non-empty list of subscribed callbacks. -/
theorem slot_run_init (w0 : σ) (ops : List (Op σ)) (K : TypeIndex) :
    (subscribedTo K ops = [] ∧ ((Machine.init w0).run ops).bus.IsNull K)
      ∨ (subscribedTo K ops ≠ [] ∧ ((Machine.init w0).run ops).bus.subscriber_map K
          = some (some (handlersFor K (subscribedTo K ops)))) := by
  have h := slot_run_of_isNull ops (Machine.init w0) K (isNull_fresh K)
  by_cases h0 : subscribedTo K ops = []
  · exact Or.inl ⟨h0, h.1 h0⟩
  · exact Or.inr ⟨h0, h.2 h0⟩

end EventSystem

/-! ## Handler lists only grow -/

namespace EventSystem

variable {σ : Type}

theorem handlers_step_grows (m : Machine σ) (op : Op σ) (K : TypeIndex) :
    m.bus.handlers K <+: (m.step op).bus.handlers K := by
  cases op with
  | subscribe K' c =>
    simp only [Machine.step]
    by_cases hK : K = K'
    · subst hK
      rw [handlers_subscribe_same]
      exact List.prefix_append _ _
    · rw [handlers_subscribe_other m.bus c hK]
  | publish K' e =>
    simp only [Machine.step]
    rw [handlers_publish]

theorem handlers_run_grows (ops : List (Op σ)) (m : Machine σ) (K : TypeIndex) :
    m.bus.handlers K <+: (m.run ops).bus.handlers K := by
  induction ops generalizing m with
  | nil => exact List.prefix_refl _
  | cons op ops ih =>
    rw [run_cons]
    exact List.IsPrefix.trans (handlers_step_grows m op K) (ih _)

end EventSystem

namespace EventSystem_FuncPtr

variable {ρ σ : Type}

theorem fp_handlers_subscribe_same (bus : EventBus ρ σ) (K : TypeIndex) (r : ρ)
    (f : MemberFunction ρ σ) :
    (bus.subscribe K r f).handlers K = bus.handlers K ++ [some ⟨K, r, f⟩] := by
  have h := fp_slot_subscribe_same bus K r f
  simp [EventBus.handlers, h]

theorem fp_handlers_subscribe_other (bus : EventBus ρ σ) {K K' : TypeIndex} (r : ρ)
    (f : MemberFunction ρ σ) (hne : K' ≠ K) :
    (bus.subscribe K r f).handlers K' = bus.handlers K' := by
  unfold EventBus.handlers
  rw [fp_slot_subscribe_other bus r f hne]

theorem fp_handlers_publish (bus : EventBus ρ σ) (K K' : TypeIndex) (e : Option Event) (w : σ) :
    (bus.publish K e w).bus.handlers K' = bus.handlers K' := by
  unfold EventBus.handlers
  by_cases hne : K' = K
  · subst hne
    rw [fp_slot_publish_same]
    rcases h : bus.subscriber_map K' with _ | _ | l <;> simp
  · rw [fp_slot_publish_other bus e w hne]

theorem fp_handlers_step_grows (m : Machine ρ σ) (op : Op ρ σ) (K : TypeIndex) :
    m.bus.handlers K <+: (m.step op).bus.handlers K := by
  cases op with
  | subscribe K' r f =>
    simp only [Machine.step]
    by_cases hK : K = K'
    · subst hK
      rw [fp_handlers_subscribe_same]
      exact List.prefix_append _ _
    · rw [fp_handlers_subscribe_other m.bus r f hK]
  | publish K' e =>
    simp only [Machine.step]
    rw [fp_handlers_publish]

theorem fp_handlers_run_grows (ops : List (Op ρ σ)) (m : Machine ρ σ) (K : TypeIndex) :
    m.bus.handlers K <+: (m.run ops).bus.handlers K := by
  induction ops generalizing m with
  | nil => exact List.prefix_refl _
  | cons op ops ih =>
    rw [fp_run_cons]
    exact List.IsPrefix.trans (fp_handlers_step_grows m op K) (ih _)

/-- Every call made by `dispatch` is a call of a handler of the list, on the
published event pointer. -/
theorem fp_dispatch_invoked_mem (l : FuncHandlerList ρ σ) (e : Option Event) (w : σ) :
    ∀ p ∈ (dispatch l e w).2.1, some p.1 ∈ l ∧ p.2 = e := by
  induction l generalizing w with
  | nil => intro p hp; simp [dispatch] at hp
  | cons a l ih =>
    cases a with
    | none => intro p hp; simp [dispatch] at hp
    | some h =>
      intro p hp
      rw [dispatch] at hp
      rcases hx : h.exec e w with ⟨w', x⟩
      rw [hx] at hp
      cases x with
      | some x =>
        simp only [List.mem_singleton] at hp
        subst hp
        simp
      | none =>
        simp only [List.mem_cons] at hp
        rcases hp with rfl | hp
        · simp
        · have := ih w' p hp
          exact ⟨List.mem_cons_of_mem _ this.1, this.2⟩

/-- Every call made by `publish` is a call of a handler stored under the type
the event is published as, on the published event pointer. -/
theorem fp_publish_invoked_mem (bus : EventBus ρ σ) (K : TypeIndex) (e : Option Event) (w : σ) :
    ∀ p ∈ (bus.publish K e w).invoked, some p.1 ∈ bus.handlers K ∧ p.2 = e := by
  rcases h : bus.subscriber_map K with _ | _ | l
  · intro p hp
    rw [(fp_publish_of_isNull (Or.inl h) e w).2.1] at hp
    simp at hp
  · intro p hp
    rw [(fp_publish_of_isNull (Or.inr h) e w).2.1] at hp
    simp at hp
  · intro p hp
    rw [fp_publish_of_list h] at hp
    have hl : bus.handlers K = l := by simp [EventBus.handlers, h]
    rw [hl]
    exact fp_dispatch_invoked_mem l e w p hp

end EventSystem_FuncPtr

/-! ## Buses that a lookup cannot tell apart, and failing callbacks -/

namespace EventSystem

variable {σ : Type}

theorem sameLists_cases {b b' : EventBus σ} (h : SameLists b b') (K : TypeIndex) :
    (b.IsNull K ∧ b'.IsNull K)
      ∨ ∃ l, b.subscriber_map K = some (some l) ∧ b'.subscriber_map K = some (some l) := by
  rcases h K with h | h
  · exact Or.inl h
  · rcases hc : b.subscriber_map K with _ | _ | l
    · exact Or.inl ⟨Or.inl hc, Or.inl (by rw [← h, hc])⟩
    · exact Or.inl ⟨Or.inr hc, Or.inr (by rw [← h, hc])⟩
    · exact Or.inr ⟨l, rfl, by rw [← h, hc]⟩

theorem sameLists_handlers {b b' : EventBus σ} (h : SameLists b b') (K : TypeIndex) :
    b.handlers K = b'.handlers K := by
  rcases sameLists_cases h K with ⟨h1, h2⟩ | ⟨l, h1, h2⟩
  · rw [handlers_of_isNull h1, handlers_of_isNull h2]
  · simp [EventBus.handlers, h1, h2]

/-- A publish without a list under its kind leaves a bus that a lookup cannot
tell from the bus before. -/
theorem sameLists_publish_of_isNull {bus : EventBus σ} {K : TypeIndex} (hn : bus.IsNull K)
    (e : Event) (w : σ) : SameLists (bus.publish K e w).bus bus := by
  intro K'
  by_cases hK : K' = K
  · subst hK
    exact Or.inl ⟨isNull_publish hn K' e w, hn⟩
  · exact Or.inr (slot_publish_other bus e w hK)

theorem step_same {m m' : Machine σ} (h : MachineSame m m') (op : Op σ) :
    MachineSame (m.step op) (m'.step op) := by
  obtain ⟨hb, hw, hi, hr⟩ := h
  cases op with
  | subscribe K c =>
    refine ⟨?_, hw, hi, hr⟩
    intro K'
    simp only [Machine.step]
    by_cases hK : K' = K
    · subst hK
      right
      rw [slot_subscribe_same, slot_subscribe_same, sameLists_handlers hb K']
    · have hk := hb K'
      unfold EventBus.IsNull at hk ⊢
      rw [slot_subscribe_other _ _ hK, slot_subscribe_other _ _ hK]
      exact hk
  | publish K e =>
    show SameLists (m.bus.publish K e m.world).bus (m'.bus.publish K e m'.world).bus
      ∧ (m.bus.publish K e m.world).world = (m'.bus.publish K e m'.world).world
      ∧ m.invoked ++ (m.bus.publish K e m.world).invoked
        = m'.invoked ++ (m'.bus.publish K e m'.world).invoked
      ∧ m.results ++ [(m.bus.publish K e m.world).thrown]
        = m'.results ++ [(m'.bus.publish K e m'.world).thrown]
    rw [← hw, ← hi, ← hr]
    have hslots : SameLists (m.bus.publish K e m.world).bus (m'.bus.publish K e m.world).bus := by
      intro K'
      by_cases hK : K' = K
      · subst hK
        rcases sameLists_cases hb K' with ⟨h1, h2⟩ | ⟨l, h1, h2⟩
        · exact Or.inl ⟨isNull_publish h1 K' e m.world, isNull_publish h2 K' e m.world⟩
        · right
          rw [slot_publish_same, slot_publish_same, h1, h2]
      · have hk := hb K'
        unfold EventBus.IsNull at hk ⊢
        rw [slot_publish_other _ _ _ hK, slot_publish_other _ _ _ hK]
        exact hk
    refine ⟨hslots, ?_⟩
    rcases sameLists_cases hb K with ⟨h1, h2⟩ | ⟨l, h1, h2⟩
    · have p1 := publish_of_isNull h1 e m.world
      have p2 := publish_of_isNull h2 e m.world
      rw [p1.1, p1.2.1, p1.2.2, p2.1, p2.2.1, p2.2.2]
      exact ⟨rfl, rfl, rfl⟩
    · rw [publish_of_list h1, publish_of_list h2]
      exact ⟨rfl, rfl, rfl⟩

theorem run_same (ops : List (Op σ)) (m m' : Machine σ) (h : MachineSame m m') :
    MachineSame (m.run ops) (m'.run ops) := by
  induction ops generalizing m m' with
  | nil => exact h
  | cons op ops ih =>
    rw [run_cons, run_cons]
    exact ih _ _ (step_same h op)

/-- Dispatch over the handlers of `pre ++ ck :: post`, when the callbacks `pre`
return and `ck` then throws `x`: the handlers of `pre` and of `ck` are called,
in order, and `x` ends the loop. -/
theorem dispatch_first_failure (K : TypeIndex) (pre post : List (MemberFunction σ))
    (ck : MemberFunction σ) (e : Event) (x : Exception) :
    ∀ (w : σ), AllReturn pre e w → (ck e (runAll pre e w)).2 = some x →
      dispatch (handlersFor K (pre ++ ck :: post)) e w
        = ((ck e (runAll pre e w)).1, (pre ++ [ck]).map (fun c => (⟨K, c⟩, e)), some x) := by
  induction pre with
  | nil =>
    intro w _ hk
    simp only [List.nil_append, handlersFor, List.map_cons]
    rw [dispatch]
    simp only [MemberFunctionHandler.exec, MemberFunctionHandler.call]
    have hk' : (ck e w).2 = some x := hk
    rcases hc : ck e w with ⟨w', y⟩
    rw [hc] at hk'
    simp only at hk'
    subst hk'
    simp [runAll, hc]
  | cons c pre ih =>
    intro w hpre hk
    obtain ⟨hc, hrest⟩ := hpre
    have hk' : (ck e (runAll pre e (c e w).1)).2 = some x := hk
    have ih' := ih (c e w).1 hrest hk'
    simp only [List.cons_append, handlersFor, List.map_cons] at ih' ⊢
    rw [dispatch]
    simp only [MemberFunctionHandler.exec, MemberFunctionHandler.call]
    rcases hcw : c e w with ⟨w', y⟩
    rw [hcw] at hc ih'
    simp only at hc ih'
    subst hc
    simp only [ih']
    simp [runAll, hcw]

end EventSystem

/-! ## Lists of fewer than two entities -/

section ShortLists

variable {β : Type}

theorem innerLoop_exit_of_pos (publish : Event → β → β × Option Exception)
    (entities : List Nat) (i j : Int) (fuel : Nat) (s : Update β) (hf : 0 < fuel)
    (hj : ¬ toSizeT j < entities.length) :
    innerLoop publish entities i fuel j s = some (s, none) := by
  obtain ⟨f, rfl⟩ : ∃ f, fuel = f + 1 := ⟨fuel - 1, by omega⟩
  exact innerLoop_exit publish entities i j f s hj

/-- On a list of fewer than two entities the outer loop ends without a turn of
the inner loop having reached its body: nothing is published and the state is
as before. -/
theorem outerLoop_short (publish : Event → β → β × Option Exception) (entities : List Nat)
    (hlen : entities.length < 2) :
    ∀ (m fuel : Nat) (i : Int) (s : Update β), IsInt i → stepsToMinusOne i = m → m < fuel →
      outerLoop publish entities fuel i s = some (s, none) := by
  intro m
  induction m with
  | zero =>
    intro fuel i s hi hm hf
    obtain ⟨f, rfl⟩ : ∃ f, fuel = f + 1 := ⟨fuel - 1, by omega⟩
    have h1 := stepsToMinusOne_zero hi hm
    have h2 : sizeMinusOne entities.length ≤ 2 ^ 64 - 1 := by
      unfold sizeMinusOne
      omega
    rw [outerLoop, if_neg (by omega)]
  | succ m ih =>
    intro fuel i s hi hm hf
    obtain ⟨f, rfl⟩ : ∃ f, fuel = f + 1 := ⟨fuel - 1, by omega⟩
    rw [outerLoop]
    by_cases hc : toSizeT i < sizeMinusOne entities.length
    · have h0 : entities.length = 0 := by
        unfold sizeMinusOne at hc
        omega
      rw [if_pos hc, innerLoop_exit_of_pos publish entities i _ intValues s
        (by unfold intValues; omega) (by omega)]
      exact ih f _ s (isInt_wrapInt _) (stepsToMinusOne_succ hi hm) (by omega)
    · rw [if_neg hc]

/-- On a list of fewer than two entities the two loops return with nothing
published and the bus state untouched, whatever `publish` would do. -/
theorem collisionLoops_short (publish : Event → β → β × Option Exception)
    (entities : List Nat) (hlen : entities.length < 2) (env : β) :
    collisionLoops publish entities env = some (⟨env, []⟩, none) :=
  outerLoop_short publish entities hlen _ intValues 0 ⟨env, []⟩ (by unfold IsInt; omega) rfl
    (stepsToMinusOne_lt _)

end ShortLists

/-! ## The element accesses of the loops -/

section Accesses

variable {β : Type}

/-- One turn of the logged inner loop with both indices in range. -/
theorem innerLoopLogged_step (publish : Event → β → β × Option Exception) (entities : List Nat)
    (i j : Int) (fuel : Nat) (s : Update β) (log : List (Nat × Nat))
    (hi : toSizeT i < entities.length) (hj : toSizeT j < entities.length) :
    innerLoopLogged publish entities i (fuel + 1) j s log
      = if entities[toSizeT i]? = entities[toSizeT j]? then
          match (publish (CollisionEvent i j) s.env).2 with
          | some x =>
            some ((⟨(publish (CollisionEvent i j) s.env).1,
              s.published ++ [(toSizeT i, toSizeT j, CollisionEvent i j)]⟩, some x),
              log ++ [(toSizeT i, toSizeT j)])
          | none =>
            innerLoopLogged publish entities i fuel (wrapInt (j + 1))
              ⟨(publish (CollisionEvent i j) s.env).1,
                s.published ++ [(toSizeT i, toSizeT j, CollisionEvent i j)]⟩
              (log ++ [(toSizeT i, toSizeT j)])
        else innerLoopLogged publish entities i fuel (wrapInt (j + 1)) s
          (log ++ [(toSizeT i, toSizeT j)]) := by
  rw [innerLoopLogged, if_pos hj, vectorAt_of_lt hi, vectorAt_of_lt hj,
    List.getElem?_eq_getElem hi, List.getElem?_eq_getElem hj]
  simp only [Option.some.injEq]

/-- Without its log, the logged inner loop is the inner loop. -/
theorem innerLoopLogged_fst (publish : Event → β → β × Option Exception) (entities : List Nat)
    (i : Int) :
    ∀ (fuel : Nat) (j : Int) (s : Update β) (log : List (Nat × Nat)),
      (innerLoopLogged publish entities i fuel j s log).map Prod.fst
        = innerLoop publish entities i fuel j s := by
  intro fuel
  induction fuel with
  | zero => intro j s log; rfl
  | succ f ih =>
    intro j s log
    by_cases hjn : toSizeT j < entities.length
    · by_cases hin : toSizeT i < entities.length
      · rw [innerLoopLogged_step publish entities i j f s log hin hjn,
          innerLoop_step publish entities i j f s hin hjn]
        by_cases hm : entities[toSizeT i]? = entities[toSizeT j]?
        · rw [if_pos hm, if_pos hm]
          rcases (publish (CollisionEvent i j) s.env).2 with _ | x
          · exact ih _ _ _
          · rfl
        · rw [if_neg hm, if_neg hm]
          exact ih _ _ _
      · rw [innerLoopLogged, innerLoop, if_pos hjn, if_pos hjn, vectorAt_of_ge (by omega)]
        rfl
    · rw [innerLoopLogged, innerLoop, if_neg hjn, if_neg hjn]
      rfl

/-- Without its log, the logged outer loop is the outer loop. -/
theorem outerLoopLogged_fst (publish : Event → β → β × Option Exception) (entities : List Nat) :
    ∀ (fuel : Nat) (i : Int) (s : Update β) (log : List (Nat × Nat)),
      (outerLoopLogged publish entities fuel i s log).map Prod.fst
        = outerLoop publish entities fuel i s := by
  intro fuel
  induction fuel with
  | zero => intro i s log; rfl
  | succ f ih =>
    intro i s log
    rw [outerLoopLogged, outerLoop]
    by_cases hc : toSizeT i < sizeMinusOne entities.length
    · rw [if_pos hc, if_pos hc, ← innerLoopLogged_fst publish entities i intValues _ s log]
      rcases innerLoopLogged publish entities i intValues (wrapInt (i + 1)) s log
        with _ | ⟨⟨s', x⟩, log'⟩
      · rfl
      · cases x with
        | some x => rfl
        | none => exact ih _ _ _
    · rw [if_neg hc, if_neg hc]
      rfl

/-- Without its log, the logged run of the two loops is the run of the two loops. -/
theorem collisionLoopsLogged_fst (publish : Event → β → β × Option Exception)
    (entities : List Nat) (env : β) :
    (collisionLoopsLogged publish entities env).map Prod.fst
      = collisionLoops publish entities env :=
  outerLoopLogged_fst publish entities intValues 0 ⟨env, []⟩ []

theorem toSizeT_lt_of_steps {i j : Int} (hi : IsInt i) (hj : IsInt j)
    (h : stepsToMinusOne j < stepsToMinusOne i) : toSizeT i < toSizeT j := by
  unfold IsInt at hi hj
  unfold stepsToMinusOne at h
  unfold toSizeT
  omega

theorem steps_pos_of_toSizeT_lt {j : Int} {n : Nat} (hj : IsInt j) (hn : n < 2 ^ 64)
    (h : toSizeT j < n) : stepsToMinusOne (wrapInt (j + 1)) + 1 = stepsToMinusOne j := by
  unfold IsInt at hj
  unfold toSizeT at h
  unfold stepsToMinusOne wrapInt
  omega

/-- The accesses of the inner loop: the row index is below the column index, and
the column index is below the size. -/
theorem innerLoopLogged_inBounds (publish : Event → β → β × Option Exception)
    (entities : List Nat) (hlen : entities.length < 2 ^ 64) (i : Int) (hi : IsInt i) :
    ∀ (fuel : Nat) (j : Int) (s : Update β) (log : List (Nat × Nat))
      (r : (Update β × Option Exception) × List (Nat × Nat)), IsInt j →
      stepsToMinusOne j < stepsToMinusOne i →
      innerLoopLogged publish entities i fuel j s log = some r →
      ∃ l, r.2 = log ++ l ∧ ∀ p ∈ l, p.1 < p.2 ∧ p.2 < entities.length := by
  intro fuel
  induction fuel with
  | zero =>
    intro j s log r _ _ h
    simp [innerLoopLogged] at h
  | succ f ih =>
    intro j s log r hj hsteps h
    by_cases hjn : toSizeT j < entities.length
    · have hij := toSizeT_lt_of_steps hi hj hsteps
      have hnext := steps_pos_of_toSizeT_lt hj hlen hjn
      have hrec : ∀ (s' : Update β),
          innerLoopLogged publish entities i f (wrapInt (j + 1)) s'
              (log ++ [(toSizeT i, toSizeT j)]) = some r →
          ∃ l, r.2 = log ++ l ∧ ∀ p ∈ l, p.1 < p.2 ∧ p.2 < entities.length := by
        intro s' h'
        obtain ⟨l, hl, hall⟩ := ih _ s' _ r (isInt_wrapInt _) (by omega) h'
        refine ⟨(toSizeT i, toSizeT j) :: l, ?_, ?_⟩
        · rw [hl]
          simp
        · intro p hp
          rcases List.mem_cons.1 hp with rfl | hp
          · exact ⟨hij, hjn⟩
          · exact hall p hp
      have hstop : ∀ (v : Update β × Option Exception),
          some (v, log ++ [(toSizeT i, toSizeT j)]) = some r →
          ∃ l, r.2 = log ++ l ∧ ∀ p ∈ l, p.1 < p.2 ∧ p.2 < entities.length := by
        intro v h'
        simp only [Option.some.injEq] at h'
        subst h'
        exact ⟨[(toSizeT i, toSizeT j)], rfl, by
          intro p hp
          rw [List.mem_singleton.1 hp]
          exact ⟨hij, hjn⟩⟩
      rw [innerLoopLogged_step publish entities i j f s log (by omega) hjn] at h
      by_cases hm : entities[toSizeT i]? = entities[toSizeT j]?
      · rw [if_pos hm] at h
        rcases hx : (publish (CollisionEvent i j) s.env).2 with _ | x
        · rw [hx] at h
          exact hrec _ h
        · rw [hx] at h
          exact hstop _ h
      · rw [if_neg hm] at h
        exact hrec _ h
    · rw [innerLoopLogged, if_neg hjn] at h
      simp only [Option.some.injEq] at h
      subst h
      exact ⟨[], by simp, by simp⟩

/-- The accesses of the outer loop are in bounds. -/
theorem outerLoopLogged_inBounds (publish : Event → β → β × Option Exception)
    (entities : List Nat) (hlen : entities.length < 2 ^ 64) :
    ∀ (fuel : Nat) (i : Int) (s : Update β) (log : List (Nat × Nat))
      (r : (Update β × Option Exception) × List (Nat × Nat)), IsInt i →
      outerLoopLogged publish entities fuel i s log = some r →
      ∃ l, r.2 = log ++ l ∧ ∀ p ∈ l, p.1 < p.2 ∧ p.2 < entities.length := by
  intro fuel
  induction fuel with
  | zero =>
    intro i s log r _ h
    simp [outerLoopLogged] at h
  | succ f ih =>
    intro i s log r hi h
    rw [outerLoopLogged] at h
    by_cases hc : toSizeT i < sizeMinusOne entities.length
    · rw [if_pos hc] at h
      have hsz : sizeMinusOne entities.length ≤ 2 ^ 64 - 1 := by
        unfold sizeMinusOne
        omega
      have hnext : stepsToMinusOne (wrapInt (i + 1)) < stepsToMinusOne i := by
        have := steps_pos_of_toSizeT_lt (n := 2 ^ 64 - 1) hi (by omega) (by omega)
        omega
      rcases hin : innerLoopLogged publish entities i intValues (wrapInt (i + 1)) s log
        with _ | ⟨⟨s', x⟩, log'⟩
      · rw [hin] at h
        simp at h
      · rw [hin] at h
        obtain ⟨l, hl, hall⟩ := innerLoopLogged_inBounds publish entities hlen i hi _ _ s log
          ((s', x), log') (isInt_wrapInt _) hnext hin
        cases x with
        | some x =>
          simp only [Option.some.injEq] at h
          subst h
          exact ⟨l, hl, hall⟩
        | none =>
          simp only at h
          obtain ⟨l', hl', hall'⟩ := ih _ _ _ r (isInt_wrapInt _) h
          refine ⟨l ++ l', ?_, ?_⟩
          · rw [hl']
            simp only at hl
            rw [hl]
            simp
          · intro p hp
            rcases List.mem_append.1 hp with hp | hp
            · exact hall p hp
            · exact hall' p hp
    · rw [if_neg hc] at h
      simp only [Option.some.injEq] at h
      subst h
      exact ⟨[], by simp, by simp⟩

/-- On every vector, whatever `publish` does, the two loops end, and every
evaluation of `entities.at(i)` and `entities.at(j)` they made has its row
index below its column index and the column index below the size. -/
theorem collisionLoopsLogged_inBounds (publish : Event → β → β × Option Exception)
    (entities : List Nat) (hlen : entities.length < 2 ^ 64) (env : β) :
    ∃ r log, collisionLoopsLogged publish entities env = some (r, log)
      ∧ collisionLoops publish entities env = some r
      ∧ ∀ p ∈ log, p.1 < p.2 ∧ p.2 < entities.length
        ∧ (∃ a b, vectorAt entities p.1 = Except.ok a ∧ vectorAt entities p.2 = Except.ok b) := by
  obtain ⟨r, hr⟩ := collisionLoops_total publish entities hlen env
  have hfst := collisionLoopsLogged_fst publish entities env
  rw [hr] at hfst
  rcases hlog : collisionLoopsLogged publish entities env with _ | ⟨r', log⟩
  · rw [hlog] at hfst
    simp at hfst
  · rw [hlog] at hfst
    simp only [Option.map_some', Option.some.injEq] at hfst
    subst hfst
    obtain ⟨l, hl, hall⟩ := outerLoopLogged_inBounds publish entities hlen intValues 0
      ⟨env, []⟩ [] (r', log) (by unfold IsInt; omega) hlog
    refine ⟨r', log, rfl, hr, ?_⟩
    intro p hp
    simp only [List.nil_append] at hl
    rw [hl] at hp
    obtain ⟨h1, h2⟩ := hall p hp
    exact ⟨h1, h2, _, _, vectorAt_of_lt (by omega), vectorAt_of_lt h2⟩

end Accesses

/-! ## The first row of the collision loops -/

section FirstRow

variable {β : Type}

/-- With a `publish` that does not throw, `d` turns of the inner loop for a row
`i`, from column `k` on and over columns below `2 ^ 31`, publish the matching
pairs of these columns and leave the loop at column `k + d`. -/
theorem innerLoop_advance (publish : Event → β → β × Option Exception) (Inv : β → Prop)
    (hpub : ∀ e g, Inv g → (publish e g).2 = none ∧ Inv (publish e g).1)
    (entities : List Nat) (hlen : entities.length < 2 ^ 64) (i : Nat)
    (hi : i < entities.length) :
    ∀ (d k fuel : Nat) (s : Update β), k + d ≤ entities.length → k + d ≤ 2 ^ 31 → d ≤ fuel →
      Inv s.env →
      innerLoop publish entities (i : Int) fuel (wrapInt (k : Int)) s
        = innerLoop publish entities (i : Int) (fuel - d) (wrapInt ((k + d : Nat) : Int))
            ⟨publishAll publish ((rowFrom entities i d k).map fun p => (publishedAt p).2.2) s.env,
              s.published ++ (rowFrom entities i d k).map publishedAt⟩
        ∧ Inv (publishAll publish ((rowFrom entities i d k).map fun p => (publishedAt p).2.2) s.env) := by
  have hi' : toSizeT (i : Int) = i := toSizeT_natCast (by omega)
  intro d
  induction d with
  | zero =>
    intro k fuel s _ _ _ hinv
    simpa [rowFrom, publishAll] using hinv
  | succ d ih =>
    intro k fuel s hk hk2 hf hinv
    obtain ⟨f, rfl⟩ : ∃ f, fuel = f + 1 := ⟨fuel - 1, by omega⟩
    have hw : wrapInt (k : Int) = k := wrapInt_natCast (by omega)
    have hk' : toSizeT (k : Int) = k := toSizeT_natCast (by omega)
    have hnext : wrapInt ((k : Int) + 1) = wrapInt ((k + 1 : Nat) : Int) := by
      push_cast
      rfl
    have e1 : f + 1 - (d + 1) = f - d := by omega
    have e2 : k + (d + 1) = k + 1 + d := by omega
    rw [e1, e2, hw, innerLoop_step publish entities i k f s (by rw [hi']; exact hi)
      (by rw [hk']; omega), hi', hk', hnext]
    by_cases hm : entities[i]? = entities[k]?
    · rw [if_pos hm]
      have hp := hpub (CollisionEvent (i : Int) (k : Int)) s.env hinv
      rw [hp.1]
      simp only
      have := ih (k + 1) f ⟨(publish (CollisionEvent (i : Int) (k : Int)) s.env).1,
        s.published ++ [(i, k, CollisionEvent (i : Int) (k : Int))]⟩ (by omega) (by omega)
        (by omega) hp.2
      rw [this.1]
      refine ⟨?_, ?_⟩
      · simp [rowFrom, hm, publishAll, publishedAt]
      · simpa [rowFrom, hm, publishAll, publishedAt] using this.2
    · rw [if_neg hm]
      have := ih (k + 1) f s (by omega) (by omega) (by omega) hinv
      rw [this.1]
      refine ⟨?_, ?_⟩
      · simp [rowFrom, hm]
      · simpa [rowFrom, hm] using this.2

/-- With a `publish` that does not throw, the two loops end and their log holds
the matching pairs of row `0` with a column from `1` to `d`, for `d` below the
size and at most `2 ^ 31 - 1`. -/
theorem collisionLoops_first_row (publish : Event → β → β × Option Exception) (Inv : β → Prop)
    (hpub : ∀ e g, Inv g → (publish e g).2 = none ∧ Inv (publish e g).1)
    (entities : List Nat) (hlen : entities.length < 2 ^ 64) (d : Nat)
    (hd : 1 + d ≤ entities.length) (hd2 : 1 + d ≤ 2 ^ 31) (h2 : 2 ≤ entities.length)
    (env : β) (hinv : Inv env) :
    ∃ r, collisionLoops publish entities env = some r
      ∧ ∀ p ∈ rowFrom entities 0 d 1, publishedAt p ∈ r.1.published := by
  obtain ⟨r, hr⟩ := collisionLoops_total publish entities hlen env
  refine ⟨r, hr, ?_⟩
  have hstart : collisionLoops publish entities env
      = outerLoop publish entities (4294967295 + 1) ((0 : Nat) : Int) ⟨env, []⟩ := rfl
  have hc : toSizeT ((0 : Nat) : Int) < sizeMinusOne entities.length := by
    unfold toSizeT sizeMinusOne
    omega
  have hin0 : wrapInt (((0 : Nat) : Int) + 1) = wrapInt ((1 : Nat) : Int) := rfl
  have hadv := innerLoop_advance publish Inv hpub entities hlen 0 (by omega) d 1 intValues
    ⟨env, []⟩ hd hd2 (by unfold intValues; omega) hinv
  rw [hstart, outerLoop, if_pos hc, hin0, hadv.1] at hr
  have hzero : IsInt ((0 : Nat) : Int) := by
    unfold IsInt
    omega
  rcases hin : innerLoop publish entities ((0 : Nat) : Int) (intValues - d)
      (wrapInt ((1 + d : Nat) : Int))
      ⟨publishAll publish ((rowFrom entities 0 d 1).map fun p => (publishedAt p).2.2) env,
        [] ++ (rowFrom entities 0 d 1).map publishedAt⟩ with _ | ⟨s', x⟩
  · rw [hin] at hr
    simp at hr
  · rw [hin] at hr
    obtain ⟨l, hl, _⟩ := innerLoop_published publish entities _ hzero _ _ _ (s', x)
      (isInt_wrapInt _) hin
    simp only [List.nil_append] at hl
    have hmem : ∀ p ∈ rowFrom entities 0 d 1, publishedAt p ∈ s'.published := by
      intro p hp
      rw [hl]
      exact List.mem_append_left _ (List.mem_map_of_mem _ hp)
    cases x with
    | some x =>
      simp only [Option.some.injEq] at hr
      subst hr
      exact hmem
    | none =>
      simp only at hr
      obtain ⟨l', hl', _⟩ := outerLoop_published publish entities _ _ _ r (isInt_wrapInt _) hr
      intro p hp
      rw [hl']
      exact List.mem_append_left _ (hmem p hp)

end FirstRow

/-! ## Runs with the silent subscriber -/

namespace EventSystem

/-- With the silent subscriber, `CollisionUpdate` ends and its log holds the
matching pairs of row `0` with a column from `1` to `d`, for `d` below the
size and at most `2 ^ 31 - 1`. -/
theorem silent_run_first_row {σ : Type} (w0 : σ) (entities : List Nat)
    (hlen : entities.length < 2 ^ 64) (d : Nat) (hd : 1 + d ≤ entities.length)
    (hd2 : 1 + d ≤ 2 ^ 31) (h2 : 2 ≤ entities.length) :
    ∃ r, PhysicsSystem.CollisionUpdate ⟨entities⟩ (silentGlobals w0) = some r
      ∧ ∀ p ∈ rowFrom entities 0 d 1, publishedAt p ∈ r.1.published :=
  collisionLoops_first_row Globals.publish
    (fun g' : Globals σ => g'.event_bus.subscriber_map typeidCollisionEvent
      = some (some [some ⟨typeidCollisionEvent, silent⟩]))
    (fun e g' hg' => by
      have h := globals_publish_one silent (fun _ _ => rfl) e g' hg'
      refine ⟨h.1, ?_⟩
      show (Globals.publish e g').1.event_bus.subscriber_map typeidCollisionEvent
        = some (some [some ⟨typeidCollisionEvent, silent⟩])
      rw [h.2.1]
      exact hg')
    entities hlen d hd hd2 h2 (silentGlobals w0) rfl

/-- In a vector of `n` zeros, the pair of row `0` and a column `c` with
`1 ≤ c ≤ d < n` is a matching pair of the first `d` columns. -/
theorem mem_rowFrom_zeros (n d c : Nat) (h1 : 1 ≤ c) (hc : c ≤ d) (hd : d < n) :
    (0, c) ∈ rowFrom (List.replicate n 0) 0 d 1 := by
  rw [mem_rowFrom]
  refine ⟨rfl, h1, by simp only; omega, ?_⟩
  rw [List.getElem?_replicate_of_lt (by omega), List.getElem?_replicate_of_lt (by simp only; omega)]

end EventSystem

/-! ## The claims -/

/-- C3, refuted as stated: a callback that throws, subscribed twice to a kind of
a fresh bus, is called once by a publish, not twice: the counter it keeps goes
from 0 to 1 and its exception leaves `publish`. -/
theorem subscribe_twice_thrower_called_once :
    ((((fun b : EventSystem.EventBus Nat => b.subscribe typeidCollisionEvent countingThrower)^[2])
        EventSystem.EventBus.fresh).publish typeidCollisionEvent (CollisionEvent 1 2) 0).invoked
        = [(⟨typeidCollisionEvent, countingThrower⟩, CollisionEvent 1 2)]
      ∧ ((((fun b : EventSystem.EventBus Nat =>
          b.subscribe typeidCollisionEvent countingThrower)^[2])
        EventSystem.EventBus.fresh).publish typeidCollisionEvent (CollisionEvent 1 2) 0).world
        = 1
      ∧ ((((fun b : EventSystem.EventBus Nat =>
          b.subscribe typeidCollisionEvent countingThrower)^[2])
        EventSystem.EventBus.fresh).publish typeidCollisionEvent (CollisionEvent 1 2) 0).thrown
        = some (Exception.other 0) :=
  ⟨rfl, rfl, rfl⟩

/-- C3, amended: subscribing `N ≥ 1` times a callback `c` that returns normally to
a kind `K` without handlers makes one publish under `K` call the handler of `c`
exactly `N` times (and nothing else) and return normally; and on every bus one
more subscribe makes the list of `K` one longer, whatever is registered. -/
theorem subscribe_n_times_invokes_n_times {σ : Type} (bus : EventSystem.EventBus σ)
    (K : TypeIndex) (c : EventSystem.MemberFunction σ) (N : Nat) (e : Event) (w : σ)
    (hK : bus.handlers K = []) (hN : 1 ≤ N) (hc : EventSystem.NeverFails c) :
    ((((fun b : EventSystem.EventBus σ => b.subscribe K c)^[N]) bus).publish K e w).invoked
        = List.replicate N (⟨K, c⟩, e)
      ∧ ((((fun b : EventSystem.EventBus σ => b.subscribe K c)^[N]) bus).publish K e w).thrown
        = none
      ∧ ((((fun b : EventSystem.EventBus σ => b.subscribe K c)^[N]) bus).publish K e w).world
        = ((fun v => (c e v).1)^[N]) w
      ∧ ∀ (b : EventSystem.EventBus σ) (c' : EventSystem.MemberFunction σ),
          ((b.subscribe K c').handlers K).length = (b.handlers K).length + 1 := by
  have hs := EventSystem.slot_iterate_subscribe bus K c N hN
  rw [hK, List.nil_append] at hs
  have hl : List.replicate N (some (⟨K, c⟩ : EventSystem.MemberFunctionHandler σ))
      = EventSystem.handlersFor K (List.replicate N c) := by
    simp [EventSystem.handlersFor]
  rw [hl] at hs
  rw [EventSystem.publish_of_list hs, EventSystem.dispatch_handlersFor K _ e w
    (fun c' hc' => by rw [List.eq_of_mem_replicate hc']; exact hc)]
  refine ⟨by simp, rfl, EventSystem.runAll_replicate c e N w, ?_⟩
  intro b c'
  rw [EventSystem.handlers_subscribe_same]
  simp

/-- Witness of C3: the counting callback subscribed 3 times to a kind of a fresh
bus; one publish brings the counter from 0 to 3. -/
theorem subscribe_n_times_invokes_n_times_witness :
    ((((fun b : EventSystem.EventBus Nat => b.subscribe typeidCollisionEvent counting)^[3])
        EventSystem.EventBus.fresh).publish typeidCollisionEvent (CollisionEvent 1 2) 0).world
        = 3
      ∧ ((((fun b : EventSystem.EventBus Nat => b.subscribe typeidCollisionEvent counting)^[3])
        EventSystem.EventBus.fresh).publish typeidCollisionEvent (CollisionEvent 1 2) 0).invoked
        = List.replicate 3 (⟨typeidCollisionEvent, counting⟩, CollisionEvent 1 2) := by
  have h := subscribe_n_times_invokes_n_times (EventSystem.EventBus.fresh : EventSystem.EventBus Nat)
    typeidCollisionEvent counting 3 (CollisionEvent 1 2) 0 rfl (by decide)
    (fun _ _ => rfl)
  exact ⟨by rw [h.2.2.1]; rfl, h.1⟩

/-- C5: on every bus state, in both variants, `subscribe` returns (it has no
failing path) and leaves under `K` a list: the handlers a lookup of `K` gave
before (none for an absent key or a null pointer) followed by one new handler
that wraps the callback. -/
theorem subscribe_appends_at_end {ρ σ : Type} (K : TypeIndex) :
    (∀ (bus : EventSystem.EventBus σ) (c : EventSystem.MemberFunction σ),
      (bus.subscribe K c).subscriber_map K
        = some (some (bus.handlers K ++ [some ⟨K, c⟩])))
    ∧ (∀ (bus : EventSystem_FuncPtr.EventBus ρ σ) (r : ρ)
        (f : EventSystem_FuncPtr.MemberFunction ρ σ),
      (bus.subscribe K r f).subscriber_map K
        = some (some (bus.handlers K ++ [some ⟨K, r, f⟩]))) :=
  ⟨fun bus c => EventSystem.slot_subscribe_same bus K c,
   fun bus r f => EventSystem_FuncPtr.fp_slot_subscribe_same bus K r f⟩

/-- C6, refuted as stated: with a callback that throws from its second call on,
subscribed before a counting callback, the first publish calls two handlers
and returns, and the second publish, made right after it, calls one handler
and throws. -/
theorem repeated_publish_not_stable :
    ((((EventSystem.EventBus.fresh.subscribe 1 failsSecondTime).subscribe 1 counting).publish 1
        ⟨1, []⟩ 0).invoked.length = 2
      ∧ (((EventSystem.EventBus.fresh.subscribe 1 failsSecondTime).subscribe 1 counting).publish 1
        ⟨1, []⟩ 0).thrown = none)
    ∧ (((((EventSystem.EventBus.fresh.subscribe 1 failsSecondTime).subscribe 1 counting).publish 1
        ⟨1, []⟩ 0).bus.publish 1 ⟨1, []⟩
          (((EventSystem.EventBus.fresh.subscribe 1 failsSecondTime).subscribe 1 counting).publish 1
            ⟨1, []⟩ 0).world).invoked.length = 1
      ∧ ((((EventSystem.EventBus.fresh.subscribe 1 failsSecondTime).subscribe 1 counting).publish 1
        ⟨1, []⟩ 0).bus.publish 1 ⟨1, []⟩
          (((EventSystem.EventBus.fresh.subscribe 1 failsSecondTime).subscribe 1 counting).publish 1
            ⟨1, []⟩ 0).world).thrown = some (Exception.other 0)) :=
  ⟨⟨rfl, rfl⟩, rfl, rfl⟩

/-- C6, amended: on every bus state, when the callbacks stored under `K` return
normally, a publish under `K` and a second one made right after it (in the
world the first one left) make the same calls of handlers on the same event in
the same order and end the same way (both return, or both throw the same
error, such as "No subscribers"). -/
theorem repeated_publish_stable {σ : Type} (bus : EventSystem.EventBus σ) (K : TypeIndex)
    (e : Event) (w : σ)
    (hok : ∀ h, some h ∈ bus.handlers K → EventSystem.NeverFails h.member_func) :
    ((bus.publish K e w).bus.publish K e (bus.publish K e w).world).invoked
        = (bus.publish K e w).invoked
      ∧ ((bus.publish K e w).bus.publish K e (bus.publish K e w).world).thrown
        = (bus.publish K e w).thrown := by
  rcases hc : bus.subscriber_map K with _ | _ | l
  · have h1 := EventSystem.publish_of_isNull (Or.inl hc) e w
    have h2 := EventSystem.publish_of_isNull
      (EventSystem.isNull_publish (Or.inl hc) K e w) e (bus.publish K e w).world
    rw [h1.1, h1.2.1, h2.1, h2.2.1]
    exact ⟨rfl, rfl⟩
  · have h1 := EventSystem.publish_of_isNull (Or.inr hc) e w
    have h2 := EventSystem.publish_of_isNull
      (EventSystem.isNull_publish (Or.inr hc) K e w) e (bus.publish K e w).world
    rw [h1.1, h1.2.1, h2.1, h2.2.1]
    exact ⟨rfl, rfl⟩
  · have hl : bus.handlers K = l := by simp [EventSystem.EventBus.handlers, hc]
    rw [hl] at hok
    rw [EventSystem.publish_of_list hc]
    simp only
    rw [EventSystem.publish_of_list hc]
    simp only
    rw [EventSystem.dispatch_indep l e hok (EventSystem.dispatch l e w).1 w]
    exact ⟨rfl, rfl⟩

/-- Witness of C6: two publishes on a bus with the counting callback subscribed
twice both call the two handlers and return. -/
theorem repeated_publish_stable_witness :
    ((((EventSystem.EventBus.fresh.subscribe 1 counting).subscribe 1 counting).publish 1
        ⟨1, []⟩ 0).bus.publish 1 ⟨1, []⟩
          (((EventSystem.EventBus.fresh.subscribe 1 counting).subscribe 1 counting).publish 1
            ⟨1, []⟩ 0).world).invoked
      = (((EventSystem.EventBus.fresh.subscribe 1 counting).subscribe 1 counting).publish 1
        ⟨1, []⟩ 0).invoked
    ∧ (((EventSystem.EventBus.fresh.subscribe 1 counting).subscribe 1 counting).publish 1
        ⟨1, []⟩ 0).invoked.length = 2 :=
  ⟨(repeated_publish_stable ((EventSystem.EventBus.fresh.subscribe 1 counting).subscribe 1 counting)
      1 ⟨1, []⟩ 0 (by
        intro h hm
        have hl : ((EventSystem.EventBus.fresh.subscribe 1 counting).subscribe 1
            counting).handlers 1 = [some ⟨1, counting⟩, some ⟨1, counting⟩] := rfl
        rw [hl] at hm
        simp only [List.mem_cons, Option.some.injEq, List.mem_singleton, or_self,
          List.not_mem_nil, or_false] at hm
        subst hm
        intro _ _
        rfl)).1, rfl⟩

/-- C7: from fresh buses in the same world, two runs of corresponding calls
(the same kinds and events, every closure doing what its receiver-and-method
pair does) leave the same world, end every publish the same way (both return,
or both throw the same error) and make corresponding calls of handlers in the
same order on the same events. -/
theorem closure_and_method_pointer_buses_agree {ρ σ : Type} (w0 : σ)
    (ops : List (EventSystem.Op σ)) (ops' : List (EventSystem_FuncPtr.Op ρ σ))
    (hops : List.Forall₂ OpCorr ops ops') :
    ((EventSystem.Machine.init w0).run ops).world
        = ((EventSystem_FuncPtr.Machine.init w0 : EventSystem_FuncPtr.Machine ρ σ).run ops').world
      ∧ ((EventSystem.Machine.init w0).run ops).results
        = ((EventSystem_FuncPtr.Machine.init w0 : EventSystem_FuncPtr.Machine ρ σ).run ops').results
      ∧ List.Forall₂ CallCorr ((EventSystem.Machine.init w0).run ops).invoked
        ((EventSystem_FuncPtr.Machine.init w0 : EventSystem_FuncPtr.Machine ρ σ).run ops').invoked :=
  (run_corr hops (EventSystem.Machine.init w0) (EventSystem_FuncPtr.Machine.init w0)
    ⟨fun _ => trivial, rfl, rfl, List.Forall₂.nil⟩).2

/-- Witness of C7: publish before any subscription, then the warning system of
`main.cpp` against the one of `main_func_ptr.cpp`, then a publish: the same
error first, then the same line printed. -/
theorem closure_and_method_pointer_buses_agree_witness :
    ((EventSystem.Machine.init []).run
        [EventSystem.Op.publish typeidCollisionEvent (CollisionEvent 0 1),
         EventSystem.Op.subscribe typeidCollisionEvent OnCollisionEvent,
         EventSystem.Op.publish typeidCollisionEvent (CollisionEvent 1 4)]).results
      = ((EventSystem_FuncPtr.Machine.init []).run
        [EventSystem_FuncPtr.Op.publish typeidCollisionEvent (some (CollisionEvent 0 1)),
         EventSystem_FuncPtr.Op.subscribe typeidCollisionEvent () OnCOllisionEvent,
         EventSystem_FuncPtr.Op.publish typeidCollisionEvent (some (CollisionEvent 1 4))]).results
    ∧ ((EventSystem_FuncPtr.Machine.init []).run
        [EventSystem_FuncPtr.Op.publish typeidCollisionEvent (some (CollisionEvent 0 1)),
         EventSystem_FuncPtr.Op.subscribe typeidCollisionEvent () OnCOllisionEvent,
         EventSystem_FuncPtr.Op.publish typeidCollisionEvent (some (CollisionEvent 1 4))]).results
      = [some NoSubscribers, none]
    ∧ ((EventSystem_FuncPtr.Machine.init []).run
        [EventSystem_FuncPtr.Op.publish typeidCollisionEvent (some (CollisionEvent 0 1)),
         EventSystem_FuncPtr.Op.subscribe typeidCollisionEvent () OnCOllisionEvent,
         EventSystem_FuncPtr.Op.publish typeidCollisionEvent (some (CollisionEvent 1 4))]).world
      = [(1, 4)] :=
  ⟨(closure_and_method_pointer_buses_agree ([] : List (Nat × Nat))
      [EventSystem.Op.publish typeidCollisionEvent (CollisionEvent 0 1),
       EventSystem.Op.subscribe typeidCollisionEvent OnCollisionEvent,
       EventSystem.Op.publish typeidCollisionEvent (CollisionEvent 1 4)]
      [EventSystem_FuncPtr.Op.publish typeidCollisionEvent (some (CollisionEvent 0 1)),
       EventSystem_FuncPtr.Op.subscribe typeidCollisionEvent () OnCOllisionEvent,
       EventSystem_FuncPtr.Op.publish typeidCollisionEvent (some (CollisionEvent 1 4))]
      (List.Forall₂.cons (OpCorr.publish typeidCollisionEvent (CollisionEvent 0 1))
        (List.Forall₂.cons
          (OpCorr.subscribe typeidCollisionEvent OnCollisionEvent () OnCOllisionEvent
            (fun _ _ => rfl))
          (List.Forall₂.cons (OpCorr.publish typeidCollisionEvent (CollisionEvent 1 4))
            List.Forall₂.nil)))).2.1, rfl, rfl⟩

/-- C8, refuted as stated: (1) with a subscriber that throws, `CollisionUpdate` on
`{1, 1, 1}` publishes for the pair `(0, 1)` only and is left by the exception,
so the matching pairs `(0, 2)` and `(1, 2)` get no event; (2) on a list of
`2 ^ 31 + 2` entities whose last two elements are equal, `CollisionUpdate`
returns or throws without ever publishing for the matching pair
`(2 ^ 31, 2 ^ 31 + 1)`, which its `int` counters cannot reach. -/
theorem collisionUpdate_misses_pairs :
    ((EventSystem.PhysicsSystem.CollisionUpdate ⟨[1, 1, 1]⟩
        (⟨EventSystem.EventBus.fresh.subscribe typeidCollisionEvent countingThrower, 0, []⟩ :
          EventSystem.Globals Nat)).map
        (fun r => (r.1.published.map (fun q => (q.1, q.2.1)), r.2))
      = some ([(0, 1)], some (Exception.other 0)))
    ∧ (longEntities.length = 2 ^ 31 + 2
      ∧ longEntities[2 ^ 31]? = longEntities[2 ^ 31 + 1]?
      ∧ ∃ r, EventSystem.PhysicsSystem.CollisionUpdate ⟨longEntities⟩ mainGlobals = some r
          ∧ (2 ^ 31, 2 ^ 31 + 1) ∉ r.1.published.map (fun q => (q.1, q.2.1))) := by
  have hlen : longEntities.length = 2 ^ 31 + 2 := by
    unfold longEntities
    rw [List.length_append, List.length_replicate]
    rfl
  refine ⟨rfl, hlen, ?_, ?_⟩
  · unfold longEntities
    rw [List.getElem?_append_right (by rw [List.length_replicate]),
      List.getElem?_append_right (by rw [List.length_replicate]; omega),
      List.length_replicate, Nat.sub_self, Nat.add_sub_cancel_left]
    rfl
  · obtain ⟨r, hr⟩ := collisionLoops_total EventSystem.Globals.publish longEntities
      (by rw [hlen]; omega) mainGlobals
    refine ⟨r, hr, ?_⟩
    intro hmem
    obtain ⟨q, hq, hqe⟩ := List.mem_map.1 hmem
    obtain ⟨i, j, _, hj, rfl, _⟩ := collisionLoops_published _ _ _ r hr q hq
    have h2 : toSizeT j = 2 ^ 31 + 1 := congrArg Prod.snd hqe
    have := toSizeT_of_isInt hj
    omega

/-- C8, amended: with one subscriber registered for `CollisionEvent` that returns
normally, on every entity list of length `n` with `2 ≤ n ≤ 2 ^ 31`,
`CollisionUpdate` returns after calling `publish` exactly at the index pairs
`(i, j)` with `i < j < n` and `entities[i] == entities[j]`, once each, in
lexicographic order of `(i, j)`; and every call reached the subscriber once. -/
theorem collisionUpdate_publishes_matching_pairs {σ : Type} (g : EventSystem.Globals σ)
    (c : EventSystem.MemberFunction σ) (entities : List Nat)
    (hsub : g.event_bus.subscriber_map typeidCollisionEvent
      = some (some [some ⟨typeidCollisionEvent, c⟩]))
    (hc : EventSystem.NeverFails c) (h2 : 2 ≤ entities.length)
    (hmax : entities.length ≤ 2 ^ 31) :
    ∃ r, EventSystem.PhysicsSystem.CollisionUpdate ⟨entities⟩ g = some (r, none)
      ∧ (∀ i j, (i, j) ∈ r.published.map (fun q => (q.1, q.2.1))
          ↔ i < j ∧ j < entities.length ∧ entities[i]? = entities[j]?)
      ∧ (r.published.map (fun q => (q.1, q.2.1))).Pairwise lexLt
      ∧ r.env.invoked
        = g.invoked ++ r.published.map (fun q => (⟨typeidCollisionEvent, c⟩, q.2.2)) := by
  have hspec := collisionLoops_spec EventSystem.Globals.publish
    (fun g' : EventSystem.Globals σ => g'.event_bus.subscriber_map typeidCollisionEvent
      = some (some [some ⟨typeidCollisionEvent, c⟩]))
    (fun e g' hg' => by
      have h := EventSystem.globals_publish_one c hc e g' hg'
      refine ⟨h.1, ?_⟩
      show (EventSystem.Globals.publish e g').1.event_bus.subscriber_map typeidCollisionEvent
        = some (some [some ⟨typeidCollisionEvent, c⟩])
      rw [h.2.1]
      exact hg')
    entities (by omega) hmax g hsub
  refine ⟨_, hspec, ?_, ?_, ?_⟩
  · intro i j
    simp only
    rw [map_index_publishedAt, mem_rowsFrom entities (i, j) _ 0 (by omega)]
    simp only
    constructor
    · rintro ⟨_, _, h3, h4, h5⟩
      exact ⟨h3, h4, h5⟩
    · rintro ⟨h3, h4, h5⟩
      exact ⟨by omega, by omega, h3, h4, h5⟩
  · simp only
    rw [map_index_publishedAt]
    exact pairwise_rowsFrom entities _ 0 (by omega)
  · simp only
    rw [EventSystem.publishAll_invoked c hc _ g hsub]
    simp [List.map_map, Function.comp_def]

/-- Witness of C8: the run of `main`: warning system subscribed, entities
`{1, 2, 3, 4, 2, 3}`; two calls of `publish`, for `(1, 4)`, then for `(2, 5)`. -/
theorem collisionUpdate_publishes_matching_pairs_witness :
    (∃ r, EventSystem.PhysicsSystem.CollisionUpdate ⟨mainEntities⟩ mainGlobals = some (r, none)
      ∧ (∀ i j, (i, j) ∈ r.published.map (fun q => (q.1, q.2.1))
          ↔ i < j ∧ j < mainEntities.length ∧ mainEntities[i]? = mainEntities[j]?)
      ∧ (r.published.map (fun q => (q.1, q.2.1))).Pairwise lexLt
      ∧ r.env.invoked = mainGlobals.invoked
          ++ r.published.map (fun q => (⟨typeidCollisionEvent, OnCollisionEvent⟩, q.2.2)))
    ∧ (EventSystem.PhysicsSystem.CollisionUpdate ⟨mainEntities⟩ mainGlobals).map
        (fun r => r.1.published.map (fun q => (q.1, q.2.1))) = some [(1, 4), (2, 5)] :=
  ⟨collisionUpdate_publishes_matching_pairs mainGlobals OnCollisionEvent mainEntities rfl
    (fun _ _ => rfl) (by decide) (by decide), rfl⟩

/-- C9, refuted as stated: in the run of `main` on `{1, 2, 3, 4, 2, 3}` the two
events published carry `(1, 4)` and then `(2, 5)`, the index pairs, and these
are the numbers the warning system prints; not the entity values `(2, 2)` and
`(3, 3)`. -/
theorem collision_event_payload_not_entity_values :
    (EventSystem.PhysicsSystem.CollisionUpdate ⟨mainEntities⟩ mainGlobals).map
        (fun r => r.1.published.map (fun q => (q.2.2.entity_1, q.2.2.entity_2)))
      = some [(1, 4), (2, 5)]
    ∧ (EventSystem.PhysicsSystem.CollisionUpdate ⟨mainEntities⟩ mainGlobals).map
        (fun r => r.1.env.world) = some [(1, 4), (2, 5)]
    ∧ (EventSystem.PhysicsSystem.CollisionUpdate ⟨mainEntities⟩ mainGlobals).map
        (fun r => r.1.published.map (fun q => (q.2.2.entity_1, q.2.2.entity_2)))
      ≠ some [(2, 2), (3, 3)] :=
  ⟨rfl, rfl, by decide⟩

/-- C9, amended: on every vector of entities and every bus state, in both
variants, `CollisionUpdate` ends, and every `CollisionEvent` it published, for
indices `(i, j)` of equal elements, carries the index pair reduced to
`uint8_t`: `entity_1 = i mod 256` and `entity_2 = j mod 256`. -/
theorem collision_event_carries_index_pair {ρ σ : Type} (entities : List Nat)
    (hlen : entities.length < 2 ^ 64) :
    (∀ g : EventSystem.Globals σ,
      ∃ r, EventSystem.PhysicsSystem.CollisionUpdate ⟨entities⟩ g = some r
        ∧ ∀ q ∈ r.1.published, q.2.2.dynType = typeidCollisionEvent
          ∧ q.2.2.entity_1 = q.1 % 256 ∧ q.2.2.entity_2 = q.2.1 % 256
          ∧ q.1 < entities.length ∧ q.2.1 < entities.length
          ∧ entities[q.1]? = entities[q.2.1]?)
    ∧ (∀ g : EventSystem_FuncPtr.Globals ρ σ,
      ∃ r, EventSystem_FuncPtr.PhysicsSystem.CollisionUpdate ⟨entities⟩ g = some r
        ∧ ∀ q ∈ r.1.published, q.2.2.dynType = typeidCollisionEvent
          ∧ q.2.2.entity_1 = q.1 % 256 ∧ q.2.2.entity_2 = q.2.1 % 256
          ∧ q.1 < entities.length ∧ q.2.1 < entities.length
          ∧ entities[q.1]? = entities[q.2.1]?) := by
  constructor
  · intro g
    obtain ⟨r, hr⟩ := collisionLoops_total EventSystem.Globals.publish entities hlen g
    exact ⟨r, hr, fun q hq =>
      fields_of_isCollisionEntry (collisionLoops_published _ _ _ r hr q hq)⟩
  · intro g
    obtain ⟨r, hr⟩ := collisionLoops_total EventSystem_FuncPtr.Globals.publish entities hlen g
    exact ⟨r, hr, fun q hq =>
      fields_of_isCollisionEntry (collisionLoops_published _ _ _ r hr q hq)⟩

/-- Witness of C9: the run of `main`: the events published for the index pairs
`(1, 4)` and `(2, 5)` are `CollisionEvent(1, 4)` and `CollisionEvent(2, 5)`. -/
theorem collision_event_carries_index_pair_witness :
    mainEntities.length < 2 ^ 64
    ∧ (∃ r, EventSystem.PhysicsSystem.CollisionUpdate ⟨mainEntities⟩ mainGlobals = some r
        ∧ ∀ q ∈ r.1.published, q.2.2.dynType = typeidCollisionEvent
          ∧ q.2.2.entity_1 = q.1 % 256 ∧ q.2.2.entity_2 = q.2.1 % 256
          ∧ q.1 < mainEntities.length ∧ q.2.1 < mainEntities.length
          ∧ mainEntities[q.1]? = mainEntities[q.2.1]?)
    ∧ (EventSystem.PhysicsSystem.CollisionUpdate ⟨mainEntities⟩ mainGlobals).map
        (fun r => r.1.published)
      = some [(1, 4, CollisionEvent 1 4), (2, 5, CollisionEvent 2 5)] :=
  ⟨by decide,
   (@collision_event_carries_index_pair Unit (List (Nat × Nat)) mainEntities (by decide)).1
     mainGlobals, rfl⟩

/-- C10, refuted as stated: on a fresh bus the key `1` is absent; after a publish
under `1` (which throws) the key is present, mapped to a null list pointer. -/
theorem publish_inserts_null_slot :
    (EventSystem.EventBus.fresh : EventSystem.EventBus Unit).subscriber_map 1 = none
    ∧ ((EventSystem.EventBus.fresh : EventSystem.EventBus Unit).publish 1 ⟨1, []⟩
        ()).bus.subscriber_map 1 = some none
    ∧ ((EventSystem.EventBus.fresh : EventSystem.EventBus Unit).publish 1 ⟨1, []⟩ ()).thrown
        = some NoSubscribers :=
  ⟨rfl, rfl, rfl⟩

/-- C10, amended: on every bus state, in both variants, a publish under `K`
(returning or throwing) leaves the slot of every other kind as it is, leaves a
slot of `K` that exists (a list or a null pointer) as it is, and gives a `K`
that was absent a slot with a null pointer; so a lookup of any kind finds the
same handler list before and after. -/
theorem publish_keeps_handler_lists {ρ σ : Type} (K K' : TypeIndex) (w : σ) :
    (∀ (bus : EventSystem.EventBus σ) (e : Event),
      (K' ≠ K → (bus.publish K e w).bus.subscriber_map K' = bus.subscriber_map K')
      ∧ (∀ v, bus.subscriber_map K = some v → (bus.publish K e w).bus.subscriber_map K = some v)
      ∧ (bus.subscriber_map K = none → (bus.publish K e w).bus.subscriber_map K = some none)
      ∧ (bus.publish K e w).bus.handlers K' = bus.handlers K')
    ∧ (∀ (bus : EventSystem_FuncPtr.EventBus ρ σ) (e : Option Event),
      (K' ≠ K → (bus.publish K e w).bus.subscriber_map K' = bus.subscriber_map K')
      ∧ (∀ v, bus.subscriber_map K = some v → (bus.publish K e w).bus.subscriber_map K = some v)
      ∧ (bus.subscriber_map K = none → (bus.publish K e w).bus.subscriber_map K = some none)
      ∧ (bus.publish K e w).bus.handlers K' = bus.handlers K') := by
  constructor
  · intro bus e
    refine ⟨fun hne => EventSystem.slot_publish_other bus e w hne, ?_, ?_,
      EventSystem.handlers_publish bus K K' e w⟩
    · intro v hv
      rw [EventSystem.slot_publish_same, hv]
      rfl
    · intro hv
      rw [EventSystem.slot_publish_same, hv]
      rfl
  · intro bus e
    refine ⟨fun hne => EventSystem_FuncPtr.fp_slot_publish_other bus e w hne, ?_, ?_, ?_⟩
    · intro v hv
      rw [EventSystem_FuncPtr.fp_slot_publish_same, hv]
      rfl
    · intro hv
      rw [EventSystem_FuncPtr.fp_slot_publish_same, hv]
      rfl
    · unfold EventSystem_FuncPtr.EventBus.handlers
      by_cases hne : K' = K
      · subst hne
        rw [EventSystem_FuncPtr.fp_slot_publish_same]
        rcases h : bus.subscriber_map K' with _ | _ | l <;> simp
      · rw [EventSystem_FuncPtr.fp_slot_publish_other bus e w hne]

/-- Witness of C10: on the bus of `main` after `Init`, a publish under another
kind `2` throws and leaves the slot of `CollisionEvent` as it is. -/
theorem publish_keeps_handler_lists_witness :
    typeidCollisionEvent ≠ 2
    ∧ (mainGlobals.event_bus.publish 2 ⟨2, []⟩ []).bus.subscriber_map typeidCollisionEvent
      = mainGlobals.event_bus.subscriber_map typeidCollisionEvent
    ∧ (mainGlobals.event_bus.publish 2 ⟨2, []⟩ []).thrown = some NoSubscribers :=
  ⟨by decide,
   ((@publish_keeps_handler_lists Unit (List (Nat × Nat)) 2 typeidCollisionEvent []).1
      mainGlobals.event_bus ⟨2, []⟩).1 (by decide), rfl⟩

/-- C11: in every bus reached from a fresh one by subscribe and publish calls, no
handler list has a null element, so the throw of "Tried to access null
function handler!" in `publish` is never reached: an exception that leaves
`publish` is the "No subscribers" error of a publish that called nothing, or
the exception thrown by the callback called last; and with callbacks that
return normally it is never the null-handler error. -/
theorem null_handler_branch_unreachable {σ : Type} (w0 : σ) (ops : List (EventSystem.Op σ))
    (K : TypeIndex) (e : Event) (w : σ) :
    (∀ K', none ∉ ((EventSystem.Machine.init w0).run ops).bus.handlers K')
      ∧ (∀ x, (((EventSystem.Machine.init w0).run ops).bus.publish K e w).thrown = some x →
          (x = NoSubscribers
            ∧ (((EventSystem.Machine.init w0).run ops).bus.publish K e w).invoked = [])
          ∨ ∃ h w', some h ∈ ((EventSystem.Machine.init w0).run ops).bus.handlers K
            ∧ (((EventSystem.Machine.init w0).run ops).bus.publish K e w).invoked.getLast?
              = some (h, e)
            ∧ h.member_func e w'
              = ((((EventSystem.Machine.init w0).run ops).bus.publish K e w).world, some x))
      ∧ ((∀ c ∈ EventSystem.subscribedTo K ops, EventSystem.NeverFails c) →
          (((EventSystem.Machine.init w0).run ops).bus.publish K e w).thrown
            ≠ some CorruptRegistry) := by
  refine ⟨?_, ?_, ?_⟩
  · intro K' hmem
    rw [EventSystem.handlers_run_init] at hmem
    exact EventSystem.none_not_mem_handlersFor K' _ none hmem rfl
  · intro x hx
    rcases EventSystem.slot_run_init w0 ops K with ⟨_, hnull⟩ | ⟨_, hlist⟩
    · have hp := EventSystem.publish_of_isNull hnull e w
      rw [hp.1] at hx
      exact Or.inl ⟨(Option.some.inj hx).symm, hp.2.1⟩
    · right
      rw [EventSystem.publish_of_list hlist] at hx ⊢
      rw [EventSystem.handlers_run_init]
      exact EventSystem.dispatch_thrown_origin _ e
        (EventSystem.none_not_mem_handlersFor K _) w x hx
  · intro hok
    rcases EventSystem.slot_run_init w0 ops K with ⟨_, hnull⟩ | ⟨_, hlist⟩
    · rw [(EventSystem.publish_of_isNull hnull e w).1]
      decide
    · rw [EventSystem.publish_of_list hlist, EventSystem.dispatch_handlersFor K _ e w hok]
      simp

/-- Witness of C11: on the bus of `main` after `Init`, publishing returns; the
handler list of `CollisionEvent` has no null element. -/
theorem null_handler_branch_unreachable_witness :
    none ∉ ((EventSystem.Machine.init ([] : List (Nat × Nat))).run
        [EventSystem.Op.subscribe typeidCollisionEvent OnCollisionEvent]).bus.handlers
        typeidCollisionEvent
      ∧ (((EventSystem.Machine.init ([] : List (Nat × Nat))).run
          [EventSystem.Op.subscribe typeidCollisionEvent OnCollisionEvent]).bus.publish
          typeidCollisionEvent (CollisionEvent 1 4) []).thrown ≠ some CorruptRegistry
      ∧ (((EventSystem.Machine.init ([] : List (Nat × Nat))).run
          [EventSystem.Op.subscribe typeidCollisionEvent OnCollisionEvent]).bus.publish
          typeidCollisionEvent (CollisionEvent 1 4) []).thrown = none :=
  ⟨(null_handler_branch_unreachable ([] : List (Nat × Nat))
      [EventSystem.Op.subscribe typeidCollisionEvent OnCollisionEvent]
      typeidCollisionEvent (CollisionEvent 1 4) []).1 typeidCollisionEvent,
   (null_handler_branch_unreachable ([] : List (Nat × Nat))
      [EventSystem.Op.subscribe typeidCollisionEvent OnCollisionEvent]
      typeidCollisionEvent (CollisionEvent 1 4) []).2.2
      (by
        intro c hc
        simp [EventSystem.subscribedTo] at hc
        subst hc
        intro _ _
        rfl), rfl⟩

/-- C12, refuted as stated: with a logger subscribed under `CollisionEvent`, an
instance whose concrete class is `CollisionEvent`, handed to `publish` as a
reference to the base `Event`, does not reach it: the publish throws the "No
subscribers" error and the log stays empty. -/
theorem publish_ignores_concrete_kind :
    (CollisionEvent 1 2).dynType = typeidCollisionEvent
      ∧ (EventSystem.EventBus.fresh.subscribe typeidCollisionEvent (logger 1)).handlers
          typeidCollisionEvent = [some ⟨typeidCollisionEvent, logger 1⟩]
      ∧ ((EventSystem.EventBus.fresh.subscribe typeidCollisionEvent (logger 1)).publish
          typeidEvent (CollisionEvent 1 2) []).thrown = some NoSubscribers
      ∧ ((EventSystem.EventBus.fresh.subscribe typeidCollisionEvent (logger 1)).publish
          typeidEvent (CollisionEvent 1 2) []).world = [] :=
  ⟨rfl, rfl, rfl, rfl⟩

/-- C12, amended: `publish` dispatches on the type `K` its argument is declared
with, whatever the concrete class of the instance: in both variants, every
handler it calls is stored under `K` and is called on the instance, and
without a list under `K` it throws the "No subscribers" error and calls
nothing; on a closure bus reached from a fresh one, with callbacks under `K`
that return normally, it calls the handlers of all callbacks subscribed under
`K`, in order. -/
theorem publish_dispatches_on_declared_type {ρ σ : Type} (K : TypeIndex) (w : σ) :
    (∀ (bus : EventSystem.EventBus σ) (e : Event),
      (∀ p ∈ (bus.publish K e w).invoked, some p.1 ∈ bus.handlers K ∧ p.2 = e)
      ∧ (bus.IsNull K →
          (bus.publish K e w).thrown = some NoSubscribers ∧ (bus.publish K e w).invoked = []))
    ∧ (∀ (bus : EventSystem_FuncPtr.EventBus ρ σ) (e : Option Event),
      (∀ p ∈ (bus.publish K e w).invoked, some p.1 ∈ bus.handlers K ∧ p.2 = e)
      ∧ (bus.IsNull K →
          (bus.publish K e w).thrown = some NoSubscribers ∧ (bus.publish K e w).invoked = []))
    ∧ (∀ (w0 : σ) (ops : List (EventSystem.Op σ)) (e : Event),
      EventSystem.subscribedTo K ops ≠ [] →
      (∀ c ∈ EventSystem.subscribedTo K ops, EventSystem.NeverFails c) →
      (((EventSystem.Machine.init w0).run ops).bus.publish K e w).invoked
        = (EventSystem.subscribedTo K ops).map (fun c => (⟨K, c⟩, e))) := by
  refine ⟨?_, ?_, ?_⟩
  · intro bus e
    exact ⟨EventSystem.publish_invoked_mem bus K e w, fun hn =>
      ⟨(EventSystem.publish_of_isNull hn e w).1, (EventSystem.publish_of_isNull hn e w).2.1⟩⟩
  · intro bus e
    exact ⟨EventSystem_FuncPtr.fp_publish_invoked_mem bus K e w, fun hn =>
      ⟨(EventSystem_FuncPtr.fp_publish_of_isNull hn e w).1,
        (EventSystem_FuncPtr.fp_publish_of_isNull hn e w).2.1⟩⟩
  · intro w0 ops e hne hok
    have hs := (EventSystem.slot_run_of_isNull ops (EventSystem.Machine.init w0) K
      (EventSystem.isNull_fresh K)).2 hne
    rw [EventSystem.publish_of_list hs, EventSystem.dispatch_handlersFor K _ e w hok]

/-- Witness of C12: a `CollisionEvent` handed over as itself reaches the logger
subscribed under `CollisionEvent`; handed over as the base `Event`, for which
the bus has no list, it is answered with the "No subscribers" error. -/
theorem publish_dispatches_on_declared_type_witness :
    (((EventSystem.Machine.init []).run
        [EventSystem.Op.subscribe typeidCollisionEvent (logger 1)]).bus.publish
        typeidCollisionEvent (CollisionEvent 1 2) []).invoked
      = [(⟨typeidCollisionEvent, logger 1⟩, CollisionEvent 1 2)]
    ∧ ((EventSystem.EventBus.fresh.subscribe typeidCollisionEvent (logger 1)).IsNull typeidEvent
      ∧ ((EventSystem.EventBus.fresh.subscribe typeidCollisionEvent (logger 1)).publish
          typeidEvent (CollisionEvent 1 2) []).thrown = some NoSubscribers) :=
  ⟨(@publish_dispatches_on_declared_type Unit (List (Nat × Nat × Nat)) typeidCollisionEvent
      []).2.2 [] [EventSystem.Op.subscribe typeidCollisionEvent (logger 1)] (CollisionEvent 1 2)
      (by simp [EventSystem.subscribedTo])
      (by
        intro c hc
        simp [EventSystem.subscribedTo] at hc
        subst hc
        intro _ _
        rfl),
   Or.inl rfl,
   (((@publish_dispatches_on_declared_type Unit (List (Nat × Nat × Nat)) typeidEvent []).1
      (EventSystem.EventBus.fresh.subscribe typeidCollisionEvent (logger 1))
      (CollisionEvent 1 2)).2 (Or.inl rfl)).1⟩

/-- C13: in both variants, `subscribe` under `K` leaves the slot of every other
kind as it is and puts the new handler after the handlers `K` had, so the old
list of `K` starts the new one; and over any calls of subscribe and publish,
from any state, the list of every kind before starts the list after: nothing
is removed or reordered. -/
theorem subscribe_only_adds {ρ σ : Type} (K K' : TypeIndex) :
    (∀ (bus : EventSystem.EventBus σ) (c : EventSystem.MemberFunction σ),
      (K' ≠ K → (bus.subscribe K c).subscriber_map K' = bus.subscriber_map K')
      ∧ (bus.subscribe K c).handlers K = bus.handlers K ++ [some ⟨K, c⟩]
      ∧ bus.handlers K <+: (bus.subscribe K c).handlers K)
    ∧ (∀ (m : EventSystem.Machine σ) (ops : List (EventSystem.Op σ)),
      m.bus.handlers K' <+: (m.run ops).bus.handlers K')
    ∧ (∀ (bus : EventSystem_FuncPtr.EventBus ρ σ) (r : ρ)
        (f : EventSystem_FuncPtr.MemberFunction ρ σ),
      (K' ≠ K → (bus.subscribe K r f).subscriber_map K' = bus.subscriber_map K')
      ∧ (bus.subscribe K r f).handlers K = bus.handlers K ++ [some ⟨K, r, f⟩]
      ∧ bus.handlers K <+: (bus.subscribe K r f).handlers K)
    ∧ (∀ (m : EventSystem_FuncPtr.Machine ρ σ) (ops : List (EventSystem_FuncPtr.Op ρ σ)),
      m.bus.handlers K' <+: (m.run ops).bus.handlers K') := by
  refine ⟨?_, ?_, ?_, ?_⟩
  · intro bus c
    refine ⟨fun hne => EventSystem.slot_subscribe_other bus c hne,
      EventSystem.handlers_subscribe_same bus K c, ?_⟩
    rw [EventSystem.handlers_subscribe_same]
    exact List.prefix_append _ _
  · intro m ops
    exact EventSystem.handlers_run_grows ops m K'
  · intro bus r f
    refine ⟨fun hne => EventSystem_FuncPtr.fp_slot_subscribe_other bus r f hne,
      EventSystem_FuncPtr.fp_handlers_subscribe_same bus K r f, ?_⟩
    rw [EventSystem_FuncPtr.fp_handlers_subscribe_same]
    exact List.prefix_append _ _
  · intro m ops
    exact EventSystem_FuncPtr.fp_handlers_run_grows ops m K'

/-- Witness of C13: on the bus of `main` after `Init`, a subscription under
another kind `2` leaves the slot of `CollisionEvent` as it is. -/
theorem subscribe_only_adds_witness :
    typeidCollisionEvent ≠ 2
    ∧ (mainGlobals.event_bus.subscribe 2 OnCollisionEvent).subscriber_map typeidCollisionEvent
      = mainGlobals.event_bus.subscriber_map typeidCollisionEvent
    ∧ (mainGlobals.event_bus.subscribe 2 OnCollisionEvent).handlers 2
      = [some ⟨2, OnCollisionEvent⟩] :=
  ⟨by decide,
   ((@subscribe_only_adds Unit (List (Nat × Nat)) 2 typeidCollisionEvent).1
      mainGlobals.event_bus OnCollisionEvent).1 (by decide), rfl⟩

/-- C14, refuted as stated: with a logger subscribed under the base `Event`, an
object whose concrete class is `CollisionEvent`, published as an `Event`, is
passed to the handler built for `Event`: the kind of the event is not the kind
the handler was registered under. -/
theorem handler_called_on_other_kind :
    (((EventSystem.Machine.init []).run
        [EventSystem.Op.subscribe typeidEvent (logger 1)]).bus.publish
        typeidEvent (CollisionEvent 1 2) []).invoked
      = [(⟨typeidEvent, logger 1⟩, CollisionEvent 1 2)]
    ∧ (CollisionEvent 1 2).dynType = typeidCollisionEvent
    ∧ (⟨typeidEvent, logger 1⟩ : EventSystem.MemberFunctionHandler
        (List (Nat × Nat × Nat))).eventType = typeidEvent
    ∧ typeidCollisionEvent ≠ typeidEvent
    ∧ ¬ ∀ p ∈ (((EventSystem.Machine.init []).run
          [EventSystem.Op.subscribe typeidEvent (logger 1)]).bus.publish
          typeidEvent (CollisionEvent 1 2) []).invoked,
        p.2.dynType = p.1.eventType := by
  refine ⟨rfl, rfl, rfl, by decide, ?_⟩
  intro h
  have h1 := h (⟨typeidEvent, logger 1⟩, CollisionEvent 1 2) (List.mem_singleton.2 rfl)
  exact absurd h1 (by decide)

/-- C14, amended: in every bus reached from a fresh one, every handler stored
under `K` was built for the event type `K`; so every handler that a publish
under `K` calls was built for `K`, the type the event is declared with at the
call, and is called on that event; when the event is an instance of `K`
itself, handler and event have the same kind. -/
theorem handlers_match_their_kind {σ : Type} (w0 : σ) (ops : List (EventSystem.Op σ))
    (K : TypeIndex) :
    (∀ h, some h ∈ ((EventSystem.Machine.init w0).run ops).bus.handlers K → h.eventType = K)
      ∧ (∀ (e : Event) (w : σ),
          ∀ p ∈ (((EventSystem.Machine.init w0).run ops).bus.publish K e w).invoked,
            p.1.eventType = K ∧ p.2 = e)
      ∧ (∀ (e : Event) (w : σ), e.dynType = K →
          ∀ p ∈ (((EventSystem.Machine.init w0).run ops).bus.publish K e w).invoked,
            p.2.dynType = p.1.eventType) := by
  have h1 : ∀ h, some h ∈ ((EventSystem.Machine.init w0).run ops).bus.handlers K →
      h.eventType = K := by
    intro h hm
    rw [EventSystem.handlers_run_init] at hm
    exact EventSystem.eventType_of_mem_handlersFor hm
  have h2 : ∀ (e : Event) (w : σ),
      ∀ p ∈ (((EventSystem.Machine.init w0).run ops).bus.publish K e w).invoked,
        p.1.eventType = K ∧ p.2 = e := by
    intro e w p hp
    have := EventSystem.publish_invoked_mem _ K e w p hp
    exact ⟨h1 p.1 this.1, this.2⟩
  refine ⟨h1, h2, ?_⟩
  intro e w he p hp
  obtain ⟨ht, hev⟩ := h2 e w p hp
  rw [hev, he, ht]

/-- Witness of C14: on the bus of `main` after `Init`, the handler called by a
publish of `CollisionEvent(1, 4)` was built for `CollisionEvent`. -/
theorem handlers_match_their_kind_witness :
    (CollisionEvent 1 4).dynType = typeidCollisionEvent
    ∧ (∀ p ∈ (((EventSystem.Machine.init ([] : List (Nat × Nat))).run
          [EventSystem.Op.subscribe typeidCollisionEvent OnCollisionEvent]).bus.publish
          typeidCollisionEvent (CollisionEvent 1 4) []).invoked,
        p.2.dynType = p.1.eventType)
    ∧ (((EventSystem.Machine.init ([] : List (Nat × Nat))).run
          [EventSystem.Op.subscribe typeidCollisionEvent OnCollisionEvent]).bus.publish
          typeidCollisionEvent (CollisionEvent 1 4) []).invoked
      = [(⟨typeidCollisionEvent, OnCollisionEvent⟩, CollisionEvent 1 4)] :=
  ⟨rfl,
   (handlers_match_their_kind ([] : List (Nat × Nat))
      [EventSystem.Op.subscribe typeidCollisionEvent OnCollisionEvent]
      typeidCollisionEvent).2.2 (CollisionEvent 1 4) [] rfl, rfl⟩

/-- C15: on every bus state, a publish under a kind `K` without a list (the key
absent or mapped to a null pointer) throws the "No subscribers" error, calls
nothing, leaves the world as it is, and leaves a bus on which every later
sequence of subscribe and publish calls gives the same world, the same calls
of handlers and the same ends of the publishes as on the bus before; a
subscribe of `c` under `K` that follows makes the next publish under `K` call
the handler of `c` once and nothing else, and without it a second publish
under `K` throws the "No subscribers" error again. -/
theorem failed_publish_is_a_noop {σ : Type} (bus : EventSystem.EventBus σ) (K : TypeIndex)
    (e : Event) (w : σ) (hnull : bus.IsNull K) :
    ((bus.publish K e w).thrown = some NoSubscribers ∧ (bus.publish K e w).invoked = []
        ∧ (bus.publish K e w).world = w)
      ∧ (∀ (w1 : σ) (inv : List (EventSystem.MemberFunctionHandler σ × Event))
          (res : List (Option Exception)) (ops : List (EventSystem.Op σ)),
          ((EventSystem.Machine.mk (bus.publish K e w).bus w1 inv res).run ops).world
              = ((EventSystem.Machine.mk bus w1 inv res).run ops).world
            ∧ ((EventSystem.Machine.mk (bus.publish K e w).bus w1 inv res).run ops).invoked
              = ((EventSystem.Machine.mk bus w1 inv res).run ops).invoked
            ∧ ((EventSystem.Machine.mk (bus.publish K e w).bus w1 inv res).run ops).results
              = ((EventSystem.Machine.mk bus w1 inv res).run ops).results)
      ∧ (∀ (c : EventSystem.MemberFunction σ) (e' : Event) (w' : σ),
          (((bus.publish K e w).bus.subscribe K c).publish K e' w').invoked = [(⟨K, c⟩, e')])
      ∧ (∀ (e' : Event) (w' : σ),
          ((bus.publish K e w).bus.publish K e' w').thrown = some NoSubscribers) := by
  have hn' := EventSystem.isNull_publish hnull K e w
  refine ⟨EventSystem.publish_of_isNull hnull e w, ?_, ?_, ?_⟩
  · intro w1 inv res ops
    have h := EventSystem.run_same ops
      (EventSystem.Machine.mk (bus.publish K e w).bus w1 inv res)
      (EventSystem.Machine.mk bus w1 inv res)
      ⟨EventSystem.sameLists_publish_of_isNull hnull e w, rfl, rfl, rfl⟩
    exact ⟨h.2.1, h.2.2.1, h.2.2.2⟩
  · intro c e' w'
    have hs := EventSystem.slot_subscribe_same (bus.publish K e w).bus K c
    rw [EventSystem.handlers_of_isNull hn', List.nil_append] at hs
    rw [EventSystem.publish_of_list hs]
    simp only [EventSystem.dispatch, EventSystem.MemberFunctionHandler.exec,
      EventSystem.MemberFunctionHandler.call]
    rcases c e' w' with ⟨v, y⟩
    cases y <;> rfl
  · intro e' w'
    exact (EventSystem.publish_of_isNull hn' e' w').1

/-- Witness of C15: on a fresh bus, after a failed publish of `CollisionEvent`,
subscribing the warning system and publishing `CollisionEvent(1, 4)` prints
one line; a second publish made instead of the subscribe fails again. -/
theorem failed_publish_is_a_noop_witness :
    (EventSystem.EventBus.fresh : EventSystem.EventBus (List (Nat × Nat))).IsNull
        typeidCollisionEvent
    ∧ ((((EventSystem.EventBus.fresh : EventSystem.EventBus (List (Nat × Nat))).publish
        typeidCollisionEvent (CollisionEvent 0 1) []).bus.subscribe typeidCollisionEvent
          OnCollisionEvent).publish typeidCollisionEvent (CollisionEvent 1 4) []).invoked
      = [(⟨typeidCollisionEvent, OnCollisionEvent⟩, CollisionEvent 1 4)]
    ∧ ((((EventSystem.EventBus.fresh : EventSystem.EventBus (List (Nat × Nat))).publish
        typeidCollisionEvent (CollisionEvent 0 1) []).bus.subscribe typeidCollisionEvent
          OnCollisionEvent).publish typeidCollisionEvent (CollisionEvent 1 4) []).world
      = [(1, 4)]
    ∧ (((EventSystem.EventBus.fresh : EventSystem.EventBus (List (Nat × Nat))).publish
        typeidCollisionEvent (CollisionEvent 0 1) []).bus.publish
          typeidCollisionEvent (CollisionEvent 0 1) []).thrown = some NoSubscribers :=
  ⟨Or.inl rfl,
   (failed_publish_is_a_noop (EventSystem.EventBus.fresh : EventSystem.EventBus (List (Nat × Nat)))
      typeidCollisionEvent (CollisionEvent 0 1) [] (Or.inl rfl)).2.2.1
      OnCollisionEvent (CollisionEvent 1 4) [],
   rfl,
   (failed_publish_is_a_noop (EventSystem.EventBus.fresh : EventSystem.EventBus (List (Nat × Nat)))
      typeidCollisionEvent (CollisionEvent 0 1) [] (Or.inl rfl)).2.2.2
      (CollisionEvent 0 1) []⟩

/-- C16: on a bus reached from a fresh one where the callbacks subscribed to `K`
are `pre ++ ck :: post`, a publish under `K` during which the callbacks `pre`
return and `ck` then throws `x` is left by exactly `x`; the handlers of `pre`
and then of `ck` were called, once each, in order, those of `post` were not;
the world is the one `ck` left, and the bus is as before. -/
theorem callback_failure_propagates {σ : Type} (w0 : σ) (ops : List (EventSystem.Op σ))
    (K : TypeIndex) (e : Event) (w : σ) (pre post : List (EventSystem.MemberFunction σ))
    (ck : EventSystem.MemberFunction σ) (x : Exception)
    (hcs : EventSystem.subscribedTo K ops = pre ++ ck :: post)
    (hpre : EventSystem.AllReturn pre e w)
    (hk : (ck e (EventSystem.runAll pre e w)).2 = some x) :
    (((EventSystem.Machine.init w0).run ops).bus.publish K e w).thrown = some x
      ∧ (((EventSystem.Machine.init w0).run ops).bus.publish K e w).invoked
        = (pre ++ [ck]).map (fun c => (⟨K, c⟩, e))
      ∧ (((EventSystem.Machine.init w0).run ops).bus.publish K e w).world
        = (ck e (EventSystem.runAll pre e w)).1
      ∧ (((EventSystem.Machine.init w0).run ops).bus.publish K e w).bus
        = ((EventSystem.Machine.init w0).run ops).bus := by
  have hne : EventSystem.subscribedTo K ops ≠ [] := by
    rw [hcs]
    simp
  have hs := (EventSystem.slot_run_of_isNull ops (EventSystem.Machine.init w0) K
    (EventSystem.isNull_fresh K)).2 hne
  rw [hcs] at hs
  rw [EventSystem.publish_of_list hs,
    EventSystem.dispatch_first_failure K pre post ck e x w hpre hk]
  exact ⟨rfl, rfl, rfl, rfl⟩

/-- Witness of C16: the counting callback, then the throwing one, then the
counting one again, subscribed under kind 1: a publish is left by the
exception of the second, after two calls, with the counter at 2. -/
theorem callback_failure_propagates_witness :
    (((EventSystem.Machine.init 0).run
        [EventSystem.Op.subscribe 1 counting, EventSystem.Op.subscribe 1 countingThrower,
         EventSystem.Op.subscribe 1 counting]).bus.publish 1 ⟨1, []⟩ 0).thrown
      = some (Exception.other 0)
    ∧ (((EventSystem.Machine.init 0).run
        [EventSystem.Op.subscribe 1 counting, EventSystem.Op.subscribe 1 countingThrower,
         EventSystem.Op.subscribe 1 counting]).bus.publish 1 ⟨1, []⟩ 0).invoked
      = [(⟨1, counting⟩, ⟨1, []⟩), (⟨1, countingThrower⟩, ⟨1, []⟩)]
    ∧ (((EventSystem.Machine.init 0).run
        [EventSystem.Op.subscribe 1 counting, EventSystem.Op.subscribe 1 countingThrower,
         EventSystem.Op.subscribe 1 counting]).bus.publish 1 ⟨1, []⟩ 0).world = 2 :=
  ⟨(callback_failure_propagates 0
      [EventSystem.Op.subscribe 1 counting, EventSystem.Op.subscribe 1 countingThrower,
       EventSystem.Op.subscribe 1 counting] 1 ⟨1, []⟩ 0 [counting] [counting] countingThrower
      (Exception.other 0) rfl ⟨rfl, trivial⟩ rfl).1,
   (callback_failure_propagates 0
      [EventSystem.Op.subscribe 1 counting, EventSystem.Op.subscribe 1 countingThrower,
       EventSystem.Op.subscribe 1 counting] 1 ⟨1, []⟩ 0 [counting] [counting] countingThrower
      (Exception.other 0) rfl ⟨rfl, trivial⟩ rfl).2.1,
   rfl⟩

/-- C17, refuted as stated: with exactly one entity the bound `size() - 1` is `0`,
not the largest `size_t` value: nothing wraps around. -/
theorem bound_of_one_entity_is_zero :
    sizeMinusOne ([7] : List Nat).length = 0
      ∧ sizeMinusOne ([7] : List Nat).length ≠ 2 ^ 64 - 1 := by
  constructor <;> decide

/-- C17, amended: the bound `entities.size() - 1`, computed in `size_t`, wraps
around to the largest `size_t` value when the vector is empty, and only then:
for a vector of `n ≥ 1` entities it is `n - 1` (so `0` for one entity). -/
theorem bound_underflows_only_when_empty (entities : List Nat)
    (hlen : entities.length < 2 ^ 64) :
    (entities.length = 0 → sizeMinusOne entities.length = 2 ^ 64 - 1)
      ∧ (1 ≤ entities.length → sizeMinusOne entities.length = entities.length - 1)
      ∧ (sizeMinusOne entities.length = 2 ^ 64 - 1 ↔ entities.length = 0) := by
  unfold sizeMinusOne
  refine ⟨?_, ?_, ?_⟩
  · intro h
    omega
  · intro h
    omega
  · constructor <;> intro h <;> omega

/-- Witness of C17: the empty vector and the vector of `main`. -/
theorem bound_underflows_only_when_empty_witness :
    ([] : List Nat).length < 2 ^ 64
    ∧ sizeMinusOne ([] : List Nat).length = 2 ^ 64 - 1
    ∧ (1 ≤ mainEntities.length ∧ sizeMinusOne mainEntities.length = mainEntities.length - 1) :=
  ⟨by decide, (bound_underflows_only_when_empty [] (by decide)).1 rfl,
   by decide, (bound_underflows_only_when_empty mainEntities (by decide)).2.1 (by decide)⟩

/-- C18: in every bus reached from a fresh one, a slot that holds a list holds a
non-empty one; a publish under a kind that was subscribed to finds a list (the
"No subscribers" throw is not reached), calls at least one handler, and an
exception that leaves it is the one thrown by the callback called last; and
every publish that returns has called at least one handler. -/
theorem handler_lists_never_empty {σ : Type} (w0 : σ) (ops : List (EventSystem.Op σ))
    (K : TypeIndex) (e : Event) (w : σ) :
    (∀ l, ((EventSystem.Machine.init w0).run ops).bus.subscriber_map K = some (some l) → l ≠ [])
      ∧ (EventSystem.subscribedTo K ops ≠ [] →
          ¬ ((EventSystem.Machine.init w0).run ops).bus.IsNull K
          ∧ (((EventSystem.Machine.init w0).run ops).bus.publish K e w).invoked ≠ []
          ∧ ∀ x, (((EventSystem.Machine.init w0).run ops).bus.publish K e w).thrown = some x →
              ∃ h w', (((EventSystem.Machine.init w0).run ops).bus.publish K e w).invoked.getLast?
                  = some (h, e)
                ∧ h.member_func e w'
                  = ((((EventSystem.Machine.init w0).run ops).bus.publish K e w).world, some x))
      ∧ ((((EventSystem.Machine.init w0).run ops).bus.publish K e w).thrown = none →
          (((EventSystem.Machine.init w0).run ops).bus.publish K e w).invoked ≠ []) := by
  have hlist : ∀ cs : List (EventSystem.MemberFunction σ), cs ≠ [] →
      (EventSystem.dispatch (EventSystem.handlersFor K cs) e w).2.1 ≠ [] := by
    intro cs hcs
    obtain ⟨c, cs', rfl⟩ := List.exists_cons_of_ne_nil hcs
    exact EventSystem.dispatch_invoked_ne_nil _ _ e w
  refine ⟨?_, ?_, ?_⟩
  · intro l hl
    rcases EventSystem.slot_run_init w0 ops K with ⟨_, hnull⟩ | ⟨hne, hs⟩
    · rcases hnull with h | h <;> rw [h] at hl <;> simp at hl
    · rw [hs] at hl
      simp only [Option.some.injEq] at hl
      subst hl
      obtain ⟨c, cs', hcs⟩ := List.exists_cons_of_ne_nil hne
      rw [hcs]
      simp [EventSystem.handlersFor]
  · intro hne
    have hs := (EventSystem.slot_run_of_isNull ops (EventSystem.Machine.init w0) K
      (EventSystem.isNull_fresh K)).2 hne
    refine ⟨?_, ?_, ?_⟩
    · rintro (h | h) <;> rw [h] at hs <;> simp at hs
    · rw [EventSystem.publish_of_list hs]
      exact hlist _ hne
    · intro x hx
      rw [EventSystem.publish_of_list hs] at hx ⊢
      obtain ⟨h, w', _, h2, h3⟩ := EventSystem.dispatch_thrown_origin _ e
        (EventSystem.none_not_mem_handlersFor K _) w x hx
      exact ⟨h, w', h2, h3⟩
  · intro hnone
    rcases EventSystem.slot_run_init w0 ops K with ⟨_, hnull⟩ | ⟨hne, hs⟩
    · rw [(EventSystem.publish_of_isNull hnull e w).1] at hnone
      simp at hnone
    · rw [EventSystem.publish_of_list hs]
      exact hlist _ hne

/-- Witness of C18: on the bus of `main` after `Init`, a publish of
`CollisionEvent(1, 4)` returns after one call. -/
theorem handler_lists_never_empty_witness :
    EventSystem.subscribedTo typeidCollisionEvent
        [EventSystem.Op.subscribe typeidCollisionEvent OnCollisionEvent] ≠ []
    ∧ (((EventSystem.Machine.init ([] : List (Nat × Nat))).run
          [EventSystem.Op.subscribe typeidCollisionEvent OnCollisionEvent]).bus.publish
          typeidCollisionEvent (CollisionEvent 1 4) []).invoked ≠ []
    ∧ (((EventSystem.Machine.init ([] : List (Nat × Nat))).run
          [EventSystem.Op.subscribe typeidCollisionEvent OnCollisionEvent]).bus.publish
          typeidCollisionEvent (CollisionEvent 1 4) []).thrown = none :=
  ⟨by simp [EventSystem.subscribedTo],
   ((handler_lists_never_empty ([] : List (Nat × Nat))
      [EventSystem.Op.subscribe typeidCollisionEvent OnCollisionEvent]
      typeidCollisionEvent (CollisionEvent 1 4) []).2.1
      (by simp [EventSystem.subscribedTo])).2.1, rfl⟩

/-- C19: on every list of fewer than two entities, and on every bus state, with
or without subscribers for `CollisionEvent`, `CollisionUpdate` returns without
a call of `publish`: no event is published, no exception leaves it, bus and
world are as before. -/
theorem collisionUpdate_short_list_publishes_nothing {σ : Type} (entities : List Nat)
    (g : EventSystem.Globals σ) (hlen : entities.length < 2) :
    EventSystem.PhysicsSystem.CollisionUpdate ⟨entities⟩ g = some (⟨g, []⟩, none) :=
  collisionLoops_short EventSystem.Globals.publish entities hlen g

/-- Witness of C19: the empty list and a list of one entity, on a fresh bus, which
has no subscribers. -/
theorem collisionUpdate_short_list_publishes_nothing_witness :
    (([] : List Nat).length < 2
      ∧ EventSystem.PhysicsSystem.CollisionUpdate ⟨[]⟩
          (⟨EventSystem.EventBus.fresh, (), []⟩ : EventSystem.Globals Unit)
        = some (⟨⟨EventSystem.EventBus.fresh, (), []⟩, []⟩, none))
    ∧ (([5] : List Nat).length < 2
      ∧ EventSystem.PhysicsSystem.CollisionUpdate ⟨[5]⟩
          (⟨EventSystem.EventBus.fresh, (), []⟩ : EventSystem.Globals Unit)
        = some (⟨⟨EventSystem.EventBus.fresh, (), []⟩, []⟩, none)) :=
  ⟨⟨by decide, collisionUpdate_short_list_publishes_nothing []
      (⟨EventSystem.EventBus.fresh, (), []⟩ : EventSystem.Globals Unit) (by decide)⟩,
   ⟨by decide, collisionUpdate_short_list_publishes_nothing [5]
      (⟨EventSystem.EventBus.fresh, (), []⟩ : EventSystem.Globals Unit) (by decide)⟩⟩

/-- C20: on every vector of entities, the empty one included, and on every bus
state, in both variants, `CollisionUpdate` ends and every evaluation of
`entities.at(i)` and `entities.at(j)` it made has indices with
`i < j < entities.size()`: both accesses return an element, the out-of-range
exception of `at` is never thrown. -/
theorem collisionUpdate_accesses_in_bounds {ρ σ : Type} (entities : List Nat)
    (hlen : entities.length < 2 ^ 64) :
    (∀ g : EventSystem.Globals σ,
      ∃ r log, collisionLoopsLogged EventSystem.Globals.publish entities g = some (r, log)
        ∧ EventSystem.PhysicsSystem.CollisionUpdate ⟨entities⟩ g = some r
        ∧ ∀ p ∈ log, p.1 < p.2 ∧ p.2 < entities.length
          ∧ (∃ a b, vectorAt entities p.1 = Except.ok a ∧ vectorAt entities p.2 = Except.ok b))
    ∧ (∀ g : EventSystem_FuncPtr.Globals ρ σ,
      ∃ r log, collisionLoopsLogged EventSystem_FuncPtr.Globals.publish entities g = some (r, log)
        ∧ EventSystem_FuncPtr.PhysicsSystem.CollisionUpdate ⟨entities⟩ g = some r
        ∧ ∀ p ∈ log, p.1 < p.2 ∧ p.2 < entities.length
          ∧ (∃ a b, vectorAt entities p.1 = Except.ok a ∧ vectorAt entities p.2 = Except.ok b)) :=
  ⟨fun g => collisionLoopsLogged_inBounds EventSystem.Globals.publish entities hlen g,
   fun g => collisionLoopsLogged_inBounds EventSystem_FuncPtr.Globals.publish entities hlen g⟩

/-- Witness of C20: the run of `main` evaluates `at` for the fifteen index pairs
of six entities, row by row. -/
theorem collisionUpdate_accesses_in_bounds_witness :
    mainEntities.length < 2 ^ 64
    ∧ (∃ r log, collisionLoopsLogged EventSystem.Globals.publish mainEntities mainGlobals
          = some (r, log)
        ∧ EventSystem.PhysicsSystem.CollisionUpdate ⟨mainEntities⟩ mainGlobals = some r
        ∧ ∀ p ∈ log, p.1 < p.2 ∧ p.2 < mainEntities.length
          ∧ (∃ a b, vectorAt mainEntities p.1 = Except.ok a
            ∧ vectorAt mainEntities p.2 = Except.ok b))
    ∧ (collisionLoopsLogged EventSystem.Globals.publish mainEntities mainGlobals).map Prod.snd
      = some [(0, 1), (0, 2), (0, 3), (0, 4), (0, 5), (1, 2), (1, 3), (1, 4), (1, 5),
          (2, 3), (2, 4), (2, 5), (3, 4), (3, 5), (4, 5)] :=
  ⟨by decide,
   (@collisionUpdate_accesses_in_bounds Unit (List (Nat × Nat)) mainEntities (by decide)).1
     mainGlobals, rfl⟩

/-- C21: the payload of a published `CollisionEvent` is the pair of loop indices
narrowed to 8 bits. For vectors of `n` entities: (1) in every run, every event
published for indices `(i, j)` of equal elements has `entity_1 = i mod 256`
and `entity_2 = j mod 256`; (2) the fields are the indices themselves in every
run on every vector of size `n` exactly when `n ≤ 256`; (3) for `n > 256`, on
`n` equal entities the event for `entities[0] == entities[256]` is published
and carries `(0, 0)`; (4) for `n > 257`, on `n` equal entities two events
published for different index pairs are equal. -/
theorem payload_is_index_pair_mod_256 {σ : Type} (w0 : σ) (n : Nat) (hn : n < 2 ^ 64) :
    (∀ (entities : List Nat) (g : EventSystem.Globals σ)
        (r : Update (EventSystem.Globals σ) × Option Exception),
        EventSystem.PhysicsSystem.CollisionUpdate ⟨entities⟩ g = some r →
        ∀ q ∈ r.1.published, q.2.2.entity_1 = q.1 % 256 ∧ q.2.2.entity_2 = q.2.1 % 256
          ∧ entities[q.1]? = entities[q.2.1]?)
    ∧ ((∀ (entities : List Nat) (g : EventSystem.Globals σ)
        (r : Update (EventSystem.Globals σ) × Option Exception), entities.length = n →
        EventSystem.PhysicsSystem.CollisionUpdate ⟨entities⟩ g = some r →
        ∀ q ∈ r.1.published, q.2.2.entity_1 = q.1 ∧ q.2.2.entity_2 = q.2.1) ↔ n ≤ 256)
    ∧ (256 < n →
        ∃ r, EventSystem.PhysicsSystem.CollisionUpdate ⟨List.replicate n 0⟩ (silentGlobals w0)
            = some r
          ∧ (0, 256, CollisionEvent 0 256) ∈ r.1.published
          ∧ (CollisionEvent 0 256).entity_1 = 0 ∧ (CollisionEvent 0 256).entity_2 = 0)
    ∧ (257 < n →
        ∃ r q q', EventSystem.PhysicsSystem.CollisionUpdate ⟨List.replicate n 0⟩
            (silentGlobals w0) = some r
          ∧ q ∈ r.1.published ∧ q' ∈ r.1.published
          ∧ (q.1, q.2.1) ≠ (q'.1, q'.2.1) ∧ q.2.2 = q'.2.2) := by
  have hfields : ∀ (entities : List Nat) (g : EventSystem.Globals σ)
      (r : Update (EventSystem.Globals σ) × Option Exception),
      EventSystem.PhysicsSystem.CollisionUpdate ⟨entities⟩ g = some r →
      ∀ q ∈ r.1.published, q.2.2.dynType = typeidCollisionEvent ∧ q.2.2.entity_1 = q.1 % 256
        ∧ q.2.2.entity_2 = q.2.1 % 256 ∧ q.1 < entities.length ∧ q.2.1 < entities.length
        ∧ entities[q.1]? = entities[q.2.1]? :=
    fun entities g r hr q hq =>
      fields_of_isCollisionEntry (collisionLoops_published _ _ _ r hr q hq)
  have hlong : 256 < n →
      ∃ r, EventSystem.PhysicsSystem.CollisionUpdate ⟨List.replicate n 0⟩ (silentGlobals w0)
          = some r
        ∧ (0, 256, CollisionEvent 0 256) ∈ r.1.published
        ∧ (CollisionEvent 0 256).entity_1 = 0 ∧ (CollisionEvent 0 256).entity_2 = 0 := by
    intro h
    obtain ⟨r, hr, hall⟩ := EventSystem.silent_run_first_row w0 (List.replicate n 0)
      (by rw [List.length_replicate]; exact hn) 256
      (by rw [List.length_replicate]; omega) (by omega)
      (by rw [List.length_replicate]; omega)
    exact ⟨r, hr, hall (0, 256) (EventSystem.mem_rowFrom_zeros n 256 256 (by omega)
      (le_refl _) h), rfl, rfl⟩
  refine ⟨?_, ?_, hlong, ?_⟩
  · intro entities g r hr q hq
    have h := hfields entities g r hr q hq
    exact ⟨h.2.1, h.2.2.1, h.2.2.2.2.2⟩
  · constructor
    · intro hall
      by_contra hgt
      obtain ⟨r, hr, hmem, _, _⟩ := hlong (by omega)
      have h := (hall (List.replicate n 0) (silentGlobals w0) r (List.length_replicate _ _)
        hr _ hmem).2
      exact absurd h (by decide)
    · intro hle entities g r hlen hr q hq
      have h := hfields entities g r hr q hq
      rw [h.2.1, h.2.2.1]
      exact ⟨Nat.mod_eq_of_lt (by omega), Nat.mod_eq_of_lt (by omega)⟩
  · intro h
    obtain ⟨r, hr, hall⟩ := EventSystem.silent_run_first_row w0 (List.replicate n 0)
      (by rw [List.length_replicate]; exact hn) 257
      (by rw [List.length_replicate]; omega) (by omega)
      (by rw [List.length_replicate]; omega)
    refine ⟨r, publishedAt (0, 1), publishedAt (0, 257), hr,
      hall (0, 1) (EventSystem.mem_rowFrom_zeros n 257 1 (le_refl _) (by omega) h),
      hall (0, 257) (EventSystem.mem_rowFrom_zeros n 257 257 (by omega) (le_refl _) h),
      by decide, by decide⟩

/-- Witness of C21: on 258 equal entities with the silent subscriber, the event
for the pair `(0, 256)` carries `(0, 0)`, and two events published for
different pairs are equal; on the list of `main`, of 6 entities, the fields
are the indices. -/
theorem payload_is_index_pair_mod_256_witness :
    (258 < 2 ^ 64
      ∧ (∃ r, EventSystem.PhysicsSystem.CollisionUpdate ⟨List.replicate 258 0⟩ (silentGlobals ())
            = some r
          ∧ (0, 256, CollisionEvent 0 256) ∈ r.1.published
          ∧ (CollisionEvent 0 256).entity_1 = 0 ∧ (CollisionEvent 0 256).entity_2 = 0)
      ∧ (∃ r q q', EventSystem.PhysicsSystem.CollisionUpdate ⟨List.replicate 258 0⟩
            (silentGlobals ()) = some r
          ∧ q ∈ r.1.published ∧ q' ∈ r.1.published
          ∧ (q.1, q.2.1) ≠ (q'.1, q'.2.1) ∧ q.2.2 = q'.2.2))
    ∧ (mainEntities.length < 2 ^ 64 ∧ mainEntities.length ≤ 256
      ∧ ∀ (r : Update (EventSystem.Globals (List (Nat × Nat))) × Option Exception),
        EventSystem.PhysicsSystem.CollisionUpdate ⟨mainEntities⟩ mainGlobals = some r →
        ∀ q ∈ r.1.published, q.2.2.entity_1 = q.1 ∧ q.2.2.entity_2 = q.2.1) :=
  ⟨⟨by decide, (payload_is_index_pair_mod_256 () 258 (by decide)).2.2.1 (by decide),
     (payload_is_index_pair_mod_256 () 258 (by decide)).2.2.2 (by decide)⟩,
   ⟨by decide, by decide, fun r hr =>
     (payload_is_index_pair_mod_256 ([] : List (Nat × Nat)) mainEntities.length
       (by decide)).2.1.2 (by decide) mainEntities mainGlobals r rfl hr⟩⟩
